import Mathlib

/-!
Verification of the Wallstreet settlement engine.

This file shallowly embeds the settlement subsystem of the Wallstreet
stock-picking game (the v2.0 functions: `settleGame`, `forceSettleGame`,
`fetchFinalPrices`, `rankResults`, `calculateAwards`,
`generateWhatIfMessage`, `getBestPosition`, `getWorstPosition`,
`updateUserStats`, together with the pure helpers `calculateReturn`,
`calculatePositionValue`, `roundTo` and the static stock table
`ALL_STOCKS` / `findStockByTicker`) and proves properties about it.

Modelling conventions:
* JavaScript numbers are modelled as `Rat` (exact rational arithmetic).
* Firestore `Timestamp` values are modelled as `Nat` (milliseconds);
  `Player.submittedAt` in the source has type `Timestamp | null` but the
  settlement code dereferences it with a non-null assertion
  (`player.submittedAt!`), so the model uses a plain `Nat`.
* Firestore collections are association lists `List (String × α)` keyed
  by document id; document reads, writes and `where field ==` queries are
  the functions `lookupDoc`, `setDoc`, `updateDoc` and `List.filter`.
* `Math.random()` draws and wall-clock reads (`Timestamp.now()`,
  `formatDateString(new Date())`) are inputs, collected in `Env`.
* Display strings (the French award / what-if messages) are modelled by
  the structured type `Msg`, one constructor per template, carrying the
  values interpolated into the template.
* A JavaScript runtime crash (property access on `undefined`, or
  `Array.prototype.reduce` on an empty array with no initial value) is
  modelled by `Option`: `none` means the function throws.
-/

namespace WS

/-- JavaScript `Math.round`: round half toward positive infinity. -/
def jsRound (x : Rat) : Int := (x + 1/2).floor

/-- Source `roundTo` (utils/helpers): `Math.round(value * factor) / factor`
with `factor = 10^decimals`. -/
def roundTo (value : Rat) (decimals : Nat) : Rat :=
  (jsRound (value * (10 : Rat) ^ decimals) : Rat) / (10 : Rat) ^ decimals

/-- Source `calculateReturn`: percentage return from a start price to an
end price, `0` when the start price is `0`. -/
def calculateReturn (startPrice endPrice : Rat) : Rat :=
  if startPrice = 0 then 0 else (endPrice - startPrice) / startPrice * 100

/-- Source `calculatePositionValue`: `quantity * price`. -/
def calculatePositionValue (quantity price : Rat) : Rat :=
  quantity * price

/-- `GAME_CONSTANTS.TOTAL_BUDGET`: 10,000 credits. -/
def TOTAL_BUDGET : Rat := 10000

/-- `GAME_CONSTANTS.GAMBLER_THRESHOLD`: credits threshold for the
GAMBLER award. -/
def GAMBLER_THRESHOLD : Rat := 8000

/-- Market of a stock (source `Market` type). -/
inductive Market where
  | NASDAQ
  | NYSE
  | CAC40
deriving DecidableEq

/-- One entry of the static stock table. The source `StockData` also
carries `companyName`, `sector` and `industry`; the settlement engine
reads only `ticker` and `market`, so only those fields are modelled. -/
structure StockData where
  ticker : String
  market : Market
deriving DecidableEq

/-- Source `ALL_STOCKS` (data/stocks.ts): concatenation of the CAC40,
NASDAQ and NYSE tables, keeping the settlement-relevant fields. -/
def ALL_STOCKS : List StockData :=
  [StockData.mk "MC.PA" Market.CAC40, StockData.mk "RMS.PA" Market.CAC40, StockData.mk "KER.PA" Market.CAC40,
   StockData.mk "OR.PA" Market.CAC40, StockData.mk "RI.PA" Market.CAC40, StockData.mk "DSY.PA" Market.CAC40,
   StockData.mk "BNP.PA" Market.CAC40, StockData.mk "GLE.PA" Market.CAC40, StockData.mk "CA.PA" Market.CAC40,
   StockData.mk "ACA.PA" Market.CAC40, StockData.mk "CS.PA" Market.CAC40, StockData.mk "TTE.PA" Market.CAC40,
   StockData.mk "ENGI.PA" Market.CAC40, StockData.mk "EL.PA" Market.CAC40, StockData.mk "AIR.PA" Market.CAC40,
   StockData.mk "SAF.PA" Market.CAC40, StockData.mk "HO.PA" Market.CAC40, StockData.mk "AI.PA" Market.CAC40,
   StockData.mk "SU.PA" Market.CAC40, StockData.mk "LR.PA" Market.CAC40, StockData.mk "SGO.PA" Market.CAC40,
   StockData.mk "VIE.PA" Market.CAC40, StockData.mk "CAP.PA" Market.CAC40, StockData.mk "RNO.PA" Market.CAC40,
   StockData.mk "STLA.PA" Market.CAC40, StockData.mk "ML.PA" Market.CAC40, StockData.mk "SAN.PA" Market.CAC40,
   StockData.mk "ORA.PA" Market.CAC40, StockData.mk "VIV.PA" Market.CAC40, StockData.mk "PUB.PA" Market.CAC40,
   StockData.mk "STM.PA" Market.CAC40, StockData.mk "URW.PA" Market.CAC40, StockData.mk "BN.PA" Market.CAC40,
   StockData.mk "DG.PA" Market.CAC40, StockData.mk "ERF.PA" Market.CAC40, StockData.mk "ALO.PA" Market.CAC40,
   StockData.mk "EN.PA" Market.CAC40, StockData.mk "MT.PA" Market.CAC40, StockData.mk "TEP.PA" Market.CAC40,
   StockData.mk "WLN.PA" Market.CAC40,
   StockData.mk "AAPL" Market.NASDAQ, StockData.mk "MSFT" Market.NASDAQ, StockData.mk "GOOGL" Market.NASDAQ,
   StockData.mk "GOOG" Market.NASDAQ, StockData.mk "AMZN" Market.NASDAQ, StockData.mk "NVDA" Market.NASDAQ,
   StockData.mk "META" Market.NASDAQ, StockData.mk "TSLA" Market.NASDAQ, StockData.mk "AVGO" Market.NASDAQ,
   StockData.mk "AMD" Market.NASDAQ, StockData.mk "INTC" Market.NASDAQ, StockData.mk "QCOM" Market.NASDAQ,
   StockData.mk "TXN" Market.NASDAQ, StockData.mk "MU" Market.NASDAQ, StockData.mk "MRVL" Market.NASDAQ,
   StockData.mk "KLAC" Market.NASDAQ, StockData.mk "LRCX" Market.NASDAQ, StockData.mk "AMAT" Market.NASDAQ,
   StockData.mk "ASML" Market.NASDAQ, StockData.mk "CRM" Market.NASDAQ, StockData.mk "ADBE" Market.NASDAQ,
   StockData.mk "ORCL" Market.NASDAQ, StockData.mk "NOW" Market.NASDAQ, StockData.mk "INTU" Market.NASDAQ,
   StockData.mk "SNOW" Market.NASDAQ, StockData.mk "PLTR" Market.NASDAQ, StockData.mk "PANW" Market.NASDAQ,
   StockData.mk "CRWD" Market.NASDAQ, StockData.mk "ZS" Market.NASDAQ, StockData.mk "DDOG" Market.NASDAQ,
   StockData.mk "MDB" Market.NASDAQ, StockData.mk "NET" Market.NASDAQ, StockData.mk "TEAM" Market.NASDAQ,
   StockData.mk "WDAY" Market.NASDAQ, StockData.mk "NFLX" Market.NASDAQ, StockData.mk "BKNG" Market.NASDAQ,
   StockData.mk "ABNB" Market.NASDAQ, StockData.mk "MELI" Market.NASDAQ, StockData.mk "SHOP" Market.NASDAQ,
   StockData.mk "UBER" Market.NASDAQ, StockData.mk "LYFT" Market.NASDAQ, StockData.mk "DASH" Market.NASDAQ,
   StockData.mk "PYPL" Market.NASDAQ, StockData.mk "SQ" Market.NASDAQ, StockData.mk "COIN" Market.NASDAQ,
   StockData.mk "AMGN" Market.NASDAQ, StockData.mk "GILD" Market.NASDAQ, StockData.mk "REGN" Market.NASDAQ,
   StockData.mk "VRTX" Market.NASDAQ, StockData.mk "MRNA" Market.NASDAQ, StockData.mk "BIIB" Market.NASDAQ,
   StockData.mk "ILMN" Market.NASDAQ, StockData.mk "ISRG" Market.NASDAQ, StockData.mk "DXCM" Market.NASDAQ,
   StockData.mk "IDXX" Market.NASDAQ, StockData.mk "SBUX" Market.NASDAQ, StockData.mk "COST" Market.NASDAQ,
   StockData.mk "PEP" Market.NASDAQ, StockData.mk "MDLZ" Market.NASDAQ, StockData.mk "KDP" Market.NASDAQ,
   StockData.mk "LULU" Market.NASDAQ, StockData.mk "ROST" Market.NASDAQ, StockData.mk "CMCSA" Market.NASDAQ,
   StockData.mk "CHTR" Market.NASDAQ, StockData.mk "TMUS" Market.NASDAQ, StockData.mk "AI" Market.NASDAQ,
   StockData.mk "PATH" Market.NASDAQ, StockData.mk "RBLX" Market.NASDAQ, StockData.mk "TTWO" Market.NASDAQ,
   StockData.mk "EA" Market.NASDAQ, StockData.mk "RIVN" Market.NASDAQ, StockData.mk "LCID" Market.NASDAQ,
   StockData.mk "ENPH" Market.NASDAQ, StockData.mk "FSLR" Market.NASDAQ, StockData.mk "ADP" Market.NASDAQ,
   StockData.mk "PAYX" Market.NASDAQ, StockData.mk "CSX" Market.NASDAQ, StockData.mk "PCAR" Market.NASDAQ,
   StockData.mk "ODFL" Market.NASDAQ, StockData.mk "FAST" Market.NASDAQ, StockData.mk "VRSK" Market.NASDAQ,
   StockData.mk "CDW" Market.NASDAQ,
   StockData.mk "JPM" Market.NYSE, StockData.mk "BAC" Market.NYSE, StockData.mk "WFC" Market.NYSE, StockData.mk "GS" Market.NYSE,
   StockData.mk "MS" Market.NYSE, StockData.mk "V" Market.NYSE, StockData.mk "MA" Market.NYSE, StockData.mk "AXP" Market.NYSE,
   StockData.mk "BRK.B" Market.NYSE, StockData.mk "JNJ" Market.NYSE, StockData.mk "UNH" Market.NYSE, StockData.mk "PFE" Market.NYSE,
   StockData.mk "MRK" Market.NYSE, StockData.mk "ABBV" Market.NYSE, StockData.mk "LLY" Market.NYSE, StockData.mk "TMO" Market.NYSE,
   StockData.mk "ABT" Market.NYSE, StockData.mk "DHR" Market.NYSE, StockData.mk "BMY" Market.NYSE, StockData.mk "WMT" Market.NYSE,
   StockData.mk "HD" Market.NYSE, StockData.mk "KO" Market.NYSE, StockData.mk "PG" Market.NYSE, StockData.mk "NKE" Market.NYSE,
   StockData.mk "MCD" Market.NYSE, StockData.mk "DIS" Market.NYSE, StockData.mk "LOW" Market.NYSE, StockData.mk "TGT" Market.NYSE,
   StockData.mk "CAT" Market.NYSE, StockData.mk "BA" Market.NYSE, StockData.mk "GE" Market.NYSE, StockData.mk "HON" Market.NYSE,
   StockData.mk "UPS" Market.NYSE, StockData.mk "RTX" Market.NYSE, StockData.mk "LMT" Market.NYSE, StockData.mk "DE" Market.NYSE,
   StockData.mk "MMM" Market.NYSE, StockData.mk "XOM" Market.NYSE, StockData.mk "CVX" Market.NYSE, StockData.mk "COP" Market.NYSE,
   StockData.mk "SLB" Market.NYSE, StockData.mk "IBM" Market.NYSE, StockData.mk "ACN" Market.NYSE, StockData.mk "VZ" Market.NYSE,
   StockData.mk "T" Market.NYSE]

/-- Source `findStockByTicker`: case-insensitive lookup in `ALL_STOCKS`. -/
def findStockByTicker (ticker : String) : Option StockData :=
  ALL_STOCKS.find? (fun s => s.ticker.toUpper == ticker.toUpper)

/-- Game lifecycle status (source `GameStatus`). -/
inductive GameStatus where
  | DRAFT
  | LIVE
  | ENDED
deriving DecidableEq

/-- Data-quality flag carried on a game document. -/
inductive DataQualityFlag where
  | OK
  | STALE_PRICES
  | ESTIMATED_PRICES
deriving DecidableEq

/-- Game document (source `Game`). Fields not read or written by the
settlement subsystem (name, timing metadata, player counts, the frozen
initial-price snapshot) are omitted; `dataQualityFlag` is kept because
the specification claims settlement updates it. -/
structure Game where
  code : String
  creatorId : String
  status : GameStatus
  tickers : List String
  dataQualityFlag : DataQualityFlag
  endedAt : Option Nat
deriving DecidableEq

/-- One portfolio position of a player (source `PortfolioItem`). -/
structure PortfolioItem where
  ticker : String
  budgetInvested : Rat
  quantity : Rat
  initialPrice : Rat
deriving DecidableEq

/-- Player document (source `Player`). `userId` is `null` for anonymous
players. `submittedAt` is a plain `Nat` because settlement dereferences
it with a non-null assertion. -/
structure Player where
  playerId : String
  gameCode : String
  userId : Option String
  nickname : String
  portfolio : List PortfolioItem
  totalBudget : Rat
  submittedAt : Nat
deriving DecidableEq

/-- Per-position settlement outcome (source `PositionResult`). -/
structure PositionResult where
  ticker : String
  budgetInvested : Rat
  quantity : Rat
  initialPrice : Rat
  finalPrice : Rat
  returnPercent : Rat
  valueAtEnd : Rat
deriving DecidableEq

/-- Award taxonomy (source `AwardType`). -/
inductive AwardType where
  | WOLF
  | DOLPHIN
  | INTERN
  | ROCKET
  | BAG_HOLDER
  | ORACLE
  | GAMBLER
deriving DecidableEq

/-- Structured stand-in for the French display strings built by the
settlement code, one constructor per template, carrying exactly the
values the source interpolates into the template. -/
inductive Msg where
  | wolf (returnPercent : Rat)
  | dolphin (returnPercent : Rat)
  | intern (returnPercent : Rat)
  | rocket (ticker : String) (returnPercent : Rat)
  | bagHolder (ticker : String) (returnPercent : Rat)
  | oracle
  | gambler (ticker : String) (budgetInvested : Rat)
  | whatIf (ticker : String) (hypotheticalRank : Nat)
deriving DecidableEq

/-- Award document fragment (source `Award`). -/
structure Award where
  type : AwardType
  ticker : Option String
  value : Option Rat
  message : Msg
deriving DecidableEq

/-- Per-player settlement outcome (source `Result`). -/
structure Result where
  resultId : String
  gameCode : String
  playerId : String
  nickname : String
  positionResults : List PositionResult
  portfolioReturnPercent : Rat
  initialValue : Rat
  finalValue : Rat
  rank : Nat
  totalParticipants : Nat
  awards : List Award
  whatIfMessage : Option Msg
  submittedAt : Nat
  calculatedAt : Nat
deriving DecidableEq

/-- Best/worst position summary used by `LeaderboardEntry`. -/
structure PositionSummary where
  ticker : String
  returnPercent : Rat
deriving DecidableEq

/-- Leaderboard projection of a `Result` (source `LeaderboardEntry`). -/
structure LeaderboardEntry where
  gameCode : String
  rank : Nat
  playerId : String
  nickname : String
  portfolioReturnPercent : Rat
  finalValue : Rat
  awards : List Award
  bestPosition : PositionSummary
  worstPosition : PositionSummary
deriving DecidableEq

/-- Aggregate statistics stored on a user document (source `stats`
object read and written by `updateUserStats`). All fields are
JavaScript numbers, hence `Rat`. -/
structure UserStats where
  gamesPlayed : Rat
  gamesWon : Rat
  totalReturns : Rat
  bestReturn : Rat
  averageRank : Rat
deriving DecidableEq

/-- User document as seen by `updateUserStats`: only the `stats` field is
read or written; it may be absent (`userData.stats || {...}`). -/
structure UserDoc where
  stats : Option UserStats
deriving DecidableEq

/-- Price snapshot document. The source `PriceSnapshot` carries metadata
(currency, volume, source, quality); settlement reads only `closePrice`. -/
structure PriceSnapshot where
  closePrice : Rat
deriving DecidableEq

/-- Audit log entry as produced by the `GAME_SETTLED` call to the generic
`createAuditLog` helper (its `details` payload is `playerCount` and the
winner's nickname); the randomly generated document id is omitted. -/
structure AuditEntry where
  action : String
  actorId : String
  targetType : String
  targetId : String
  playerCount : Nat
  winner : Option String
  timestamp : Nat
deriving DecidableEq

/-- Document read from an association-list collection (`doc(id).get()`). -/
def lookupDoc (coll : List (String × α)) (k : String) : Option α :=
  (coll.find? (fun p => p.1 == k)).map (fun p => p.2)

/-- Document write (`doc(id).set(v)` / `batch.set`): replaces the entry
with key `k` when present, otherwise appends it. -/
def setDoc (coll : List (String × α)) (k : String) (v : α) : List (String × α) :=
  if coll.any (fun p => p.1 == k) then
    coll.map (fun p => if p.1 == k then (k, v) else p)
  else
    coll ++ [(k, v)]

/-- Partial document update (`doc(id).update(f)` on a document known to
exist): applies `f` to the entry with key `k`. -/
def updateDoc (coll : List (String × α)) (k : String) (f : α → α) : List (String × α) :=
  coll.map (fun p => if p.1 == k then (p.1, f p.2) else p)

/-- The whole document store touched by settlement. -/
structure World where
  games : List (String × Game)
  players : List (String × Player)
  results : List (String × Result)
  leaderboard : List (String × LeaderboardEntry)
  users : List (String × UserDoc)
  priceSnapshots : List (String × PriceSnapshot)
  auditLog : List AuditEntry
deriving DecidableEq

/-- Ambient inputs of one settlement invocation: the wall clock
(`Timestamp.now().toMillis()`), today's date string
(`formatDateString(new Date())`), and the stream of `Math.random()`
draws, indexed in the order they are taken. -/
structure Env where
  now : Nat
  today : String
  rand : Nat → Rat

/-- Query `results.where('gameCode','==',g)`: the results documents whose
`gameCode` field is `g`, in collection order. -/
def resultsForGame (results : List (String × Result)) (g : String) : List Result :=
  (results.filter (fun p => p.2.gameCode == g)).map (fun p => p.2)

/-- Query `players.where('gameCode','==',g)`. -/
def playersForGame (players : List (String × Player)) (g : String) : List Player :=
  (players.filter (fun p => p.2.gameCode == g)).map (fun p => p.2)

/-- The per-ticker loop body of `fetchFinalPrices`: use the persisted
snapshot `{today}_{ticker}` when it exists; otherwise, when the ticker is
in the static stock table, synthesize a pseudo-random price from a base
price chosen by market (`150` for CAC40, `200` otherwise), a variance
drawn in `[-15%, +20%)` and an additive draw in `[0, 400)`, rounded to
cents; when the ticker is unknown, store nothing. The accumulator
threads the `prices` record and the index of the next `Math.random()`
draw. -/
def fetchStep (env : Env) (snapshots : List (String × PriceSnapshot))
    (st : List (String × Rat) × Nat) (ticker : String) : List (String × Rat) × Nat :=
  match lookupDoc snapshots (env.today ++ "_" ++ ticker) with
  | some priceDoc => (setDoc st.1 ticker priceDoc.closePrice, st.2)
  | none =>
    match findStockByTicker ticker with
    | some stockData =>
      let basePrice : Rat := if stockData.market = Market.CAC40 then 150 else 200
      let variance := (env.rand st.2 * 35 - 15) / 100
      let price := (jsRound ((basePrice + basePrice * variance + env.rand (st.2 + 1) * 400) * 100) : Rat) / 100
      (setDoc st.1 ticker price, st.2 + 2)
    | none => st

/-- Source `fetchFinalPrices`: fold the per-ticker body `fetchStep` over
the tickers, starting from an empty price record and draw index 0. -/
def fetchFinalPrices (env : Env) (snapshots : List (String × PriceSnapshot))
    (tickers : List String) : List (String × Rat) :=
  (tickers.foldl (fetchStep env snapshots) ([], 0)).1

/-- JavaScript `finalPrices[position.ticker] || initialPrice`: the looked
up price when present and non-zero (`0` is falsy), else the fallback. -/
def resolveFinalPrice (finalPrices : List (String × Rat)) (ticker : String)
    (initialPrice : Rat) : Rat :=
  match lookupDoc finalPrices ticker with
  | some p => if p = 0 then initialPrice else p
  | none => initialPrice

/-- The per-position body of the result-computation loop in `settleGame`:
append the (rounded-at-persistence) `PositionResult` and accumulate the
unrounded `valueAtEnd` into the running total. -/
def positionStep (finalPrices : List (String × Rat))
    (st : List PositionResult × Rat) (position : PortfolioItem) :
    List PositionResult × Rat :=
  let initialPrice := position.initialPrice
  let finalPrice := resolveFinalPrice finalPrices position.ticker initialPrice
  let quantity := position.quantity
  let valueAtEnd := calculatePositionValue quantity finalPrice
  let returnPercent := calculateReturn initialPrice finalPrice
  (st.1 ++ [PositionResult.mk position.ticker position.budgetInvested quantity
      initialPrice finalPrice (roundTo returnPercent 4) (roundTo valueAtEnd 2)],
   st.2 + valueAtEnd)

/-- The per-player body of the settlement loop in `settleGame`: builds the
position results (rounded at persistence) while accumulating the
unrounded total final value, then assembles the `Result` document with
`rank` 0, no awards and no what-if message (filled in later). -/
def computePlayerResult (now : Nat) (gameCode : String)
    (finalPrices : List (String × Rat)) (totalParticipants : Nat)
    (player : Player) : Result :=
  let st := player.portfolio.foldl (positionStep finalPrices) ([], 0)
  let totalFinalValue := st.2
  let portfolioReturnPercent := calculateReturn TOTAL_BUDGET totalFinalValue
  { resultId := gameCode ++ "_" ++ player.playerId
    gameCode := gameCode
    playerId := player.playerId
    nickname := player.nickname
    positionResults := st.1
    portfolioReturnPercent := roundTo portfolioReturnPercent 4
    initialValue := TOTAL_BUDGET
    finalValue := roundTo totalFinalValue 2
    rank := 0
    totalParticipants := totalParticipants
    awards := []
    whatIfMessage := none
    submittedAt := player.submittedAt
    calculatedAt := now }

/-- The `PositionResult` document that `positionStep` appends for one
position (named for use in theorem statements). -/
def positionResultOf (finalPrices : List (String × Rat))
    (position : PortfolioItem) : PositionResult :=
  let finalPrice := resolveFinalPrice finalPrices position.ticker position.initialPrice
  PositionResult.mk position.ticker position.budgetInvested position.quantity
    position.initialPrice finalPrice
    (roundTo (calculateReturn position.initialPrice finalPrice) 4)
    (roundTo (calculatePositionValue position.quantity finalPrice) 2)

/-- The unrounded end value of one position, as accumulated into the
portfolio total by `positionStep`. -/
def rawPositionValue (finalPrices : List (String × Rat))
    (position : PortfolioItem) : Rat :=
  calculatePositionValue position.quantity
    (resolveFinalPrice finalPrices position.ticker position.initialPrice)

/-- The sort comparator passed to `results.sort` in `rankResults`:
negative when `a` sorts before `b` (higher return first, then earlier
submission). -/
def compareResults (a b : Result) : Rat :=
  if b.portfolioReturnPercent ≠ a.portfolioReturnPercent then
    b.portfolioReturnPercent - a.portfolioReturnPercent
  else
    (a.submittedAt : Rat) - (b.submittedAt : Rat)

/-- `a` may be placed before `b` by a sort consistent with
`compareResults`. -/
def resultLE (a b : Result) : Bool :=
  decide (compareResults a b ≤ 0)

/-- Insert `a` after every element of `l` that may sort before it.
Folded over a list from the left this yields exactly a stable sort, which
is what `Array.prototype.sort` performs. -/
def insertSorted (le : α → α → Bool) (a : α) : List α → List α
  | [] => [a]
  | b :: bs => if le b a then b :: insertSorted le a bs else a :: b :: bs

/-- Stable sort with respect to the boolean relation `le` (model of
`Array.prototype.sort` with a consistent comparator). -/
def stableSort (le : α → α → Bool) (l : List α) : List α :=
  l.foldl (fun acc a => insertSorted le a acc) []

/-- The rank-assignment `results[i].rank = i + 1` of `rankResults`. -/
def setRank (r : Result) (n : Nat) : Result :=
  { r with rank := n }

/-- Source `rankResults`: sort by return descending with earlier
submission winning ties, then assign `rank = index + 1`. -/
def rankResults (results : List Result) : List Result :=
  ((stableSort resultLE results).enum).map (fun p => setRank p.2 (p.1 + 1))

/-- One row of the `allPositions` flattening inside `calculateAwards`. -/
structure FlatPosition where
  playerId : String
  nickname : String
  ticker : String
  returnPercent : Rat
  budgetInvested : Rat
deriving DecidableEq

/-- `awardsMap.get(k)! .push(a)`: append `a` to the list held at key `k`
(every key pushed to was initialized, so absence never occurs on the
executed paths). -/
def mapPush (m : List (String × List Award)) (k : String) (a : Award) :
    List (String × List Award) :=
  m.map (fun p => if p.1 == k then (p.1, p.2 ++ [a]) else p)

/-- `awardsMap.get(playerId) || []`. -/
def mapGetD (m : List (String × List Award)) (k : String) : List Award :=
  (lookupDoc m k).getD []

/-- The "initialize empty arrays for all players" loop of
`calculateAwards`. -/
def initAwardsMap (results : List Result) : List (String × List Award) :=
  results.foldl (fun m r => setDoc m r.playerId ([] : List Award)) []

/-- The WOLF statement of the podium section: award rank 1. -/
def wolfAward (results : List Result) (m : List (String × List Award)) :
    List (String × List Award) :=
  match results.find? (fun r => r.rank == 1) with
  | some first => mapPush m first.playerId
      (Award.mk AwardType.WOLF none (some first.portfolioReturnPercent)
        (Msg.wolf first.portfolioReturnPercent))
  | none => m

/-- The DOLPHIN statement of the podium section: award rank 2. -/
def dolphinAward (results : List Result) (m : List (String × List Award)) :
    List (String × List Award) :=
  match results.find? (fun r => r.rank == 2) with
  | some second => mapPush m second.playerId
      (Award.mk AwardType.DOLPHIN none (some second.portfolioReturnPercent)
        (Msg.dolphin second.portfolioReturnPercent))
  | none => m

/-- The INTERN statement of the podium section: award the last rank only
when it is strictly greater than 2. -/
def internAward (results : List Result) (m : List (String × List Award)) :
    List (String × List Award) :=
  match results.find? (fun r => r.rank == results.length) with
  | some last =>
    if last.rank > 2 then
      mapPush m last.playerId
        (Award.mk AwardType.INTERN none (some last.portfolioReturnPercent)
          (Msg.intern last.portfolioReturnPercent))
    else m
  | none => m

/-- The podium section of `calculateAwards`: the WOLF, DOLPHIN and INTERN
statements in source order, all guarded by `results.length > 0`. -/
def podiumAwards (results : List Result) (m : List (String × List Award)) :
    List (String × List Award) :=
  if results.length > 0 then
    internAward results (dolphinAward results (wolfAward results m))
  else m

/-- The "flatten all positions for special awards" loop of
`calculateAwards`. -/
def flattenPositions (results : List Result) : List FlatPosition :=
  results.foldl (fun acc r =>
    acc ++ r.positionResults.map (fun pos =>
      FlatPosition.mk r.playerId r.nickname pos.ticker pos.returnPercent
        pos.budgetInvested)) []

/-- The ROCKET section of `calculateAwards` (best single stock, `reduce`
seeded with the head). -/
def rocketAward (allPositions : List FlatPosition)
    (m : List (String × List Award)) : List (String × List Award) :=
  match allPositions with
  | [] => m
  | h :: t =>
    let bestStock := t.foldl (fun best pos =>
      if pos.returnPercent > best.returnPercent then pos else best) h
    mapPush m bestStock.playerId
      (Award.mk AwardType.ROCKET (some bestStock.ticker) (some bestStock.returnPercent)
        (Msg.rocket bestStock.ticker bestStock.returnPercent))

/-- The BAG_HOLDER section of `calculateAwards` (worst single stock,
awarded only when strictly negative). -/
def bagHolderAward (allPositions : List FlatPosition)
    (m : List (String × List Award)) : List (String × List Award) :=
  match allPositions with
  | [] => m
  | h :: t =>
    let worstStock := t.foldl (fun worst pos =>
      if pos.returnPercent < worst.returnPercent then pos else worst) h
    if worstStock.returnPercent < 0 then
      mapPush m worstStock.playerId
        (Award.mk AwardType.BAG_HOLDER (some worstStock.ticker) (some worstStock.returnPercent)
          (Msg.bagHolder worstStock.ticker worstStock.returnPercent))
    else m

/-- The predicate of the ORACLE loop: every position of the result is in
the green. -/
def allGreen (r : Result) : Bool :=
  r.positionResults.all (fun pos => decide (pos.returnPercent > 0))

/-- The ORACLE section of `calculateAwards`: the `for`-loop with `break`
awards the first all-green player only (`find?`). -/
def oracleAward (results : List Result) (m : List (String × List Award)) :
    List (String × List Award) :=
  match results.find? allGreen with
  | some r => mapPush m r.playerId (Award.mk AwardType.ORACLE none none Msg.oracle)
  | none => m

/-- The GAMBLER section of `calculateAwards`: among positions with at
least `GAMBLER_THRESHOLD` credits, the largest bet. -/
def gamblerAward (allPositions : List FlatPosition)
    (m : List (String × List Award)) : List (String × List Award) :=
  let bigBets := allPositions.filter (fun pos => decide (pos.budgetInvested ≥ GAMBLER_THRESHOLD))
  match bigBets with
  | [] => m
  | h :: t =>
    let biggestBet := t.foldl (fun mx pos =>
      if pos.budgetInvested > mx.budgetInvested then pos else mx) h
    mapPush m biggestBet.playerId
      (Award.mk AwardType.GAMBLER (some biggestBet.ticker) (some biggestBet.budgetInvested)
        (Msg.gambler biggestBet.ticker biggestBet.budgetInvested))

/-- Source `calculateAwards`: initialize one empty list per player, then
apply the podium awards, flatten the positions and apply the ROCKET,
BAG_HOLDER, ORACLE and GAMBLER sections in source order. -/
def calculateAwards (results : List Result) : List (String × List Award) :=
  let awardsMap := initAwardsMap results
  let awardsMap := podiumAwards results awardsMap
  let allPositions := flattenPositions results
  let awardsMap := rocketAward allPositions awardsMap
  let awardsMap := bagHolderAward allPositions awardsMap
  let awardsMap := oracleAward results awardsMap
  let awardsMap := gamblerAward allPositions awardsMap
  awardsMap

/-- Source `generateWhatIfMessage`. Winners get `null` (the outer `some`
means "no crash"); otherwise the best position is found by `reduce`
(crash — `none` — on an empty portfolio), the hypothetical rank counts
the other players whose actual return beats that position's return, and
a message is produced only when that rank is a strict improvement. -/
def generateWhatIfMessage (result : Result) (allResults : List Result) :
    Option (Option Msg) :=
  if result.rank == 1 then some none
  else
    match result.positionResults with
    | [] => none
    | h :: t =>
      let bestPosition := t.foldl (fun best pos =>
        if pos.returnPercent > best.returnPercent then pos else best) h
      let hypotheticalReturn := bestPosition.returnPercent
      let hypotheticalRank := 1 + allResults.countP (fun other =>
        other.playerId != result.playerId &&
          decide (other.portfolioReturnPercent > hypotheticalReturn))
      if hypotheticalRank ≥ result.rank then some none
      else some (some (Msg.whatIf bestPosition.ticker hypotheticalRank))

/-- The `reduce` inside `generateWhatIfMessage` that picks the player's
best-performing position, named so theorems can speak about it: fold the
"keep the position with the larger `returnPercent`" step over the tail,
seeded with the head. -/
def bestPositionOf (p : PositionResult) (t : List PositionResult) : PositionResult :=
  t.foldl (fun best pos =>
    if pos.returnPercent > best.returnPercent then pos else best) p

/-- Source `getBestPosition` (`reduce`, crash on empty). -/
def getBestPosition (positions : List PositionResult) : Option PositionSummary :=
  match positions with
  | [] => none
  | h :: t =>
    let best := t.foldl (fun b p => if p.returnPercent > b.returnPercent then p else b) h
    some (PositionSummary.mk best.ticker best.returnPercent)

/-- Source `getWorstPosition` (`reduce`, crash on empty). -/
def getWorstPosition (positions : List PositionResult) : Option PositionSummary :=
  match positions with
  | [] => none
  | h :: t =>
    let worst := t.foldl (fun w p => if p.returnPercent < w.returnPercent then p else w) h
    some (PositionSummary.mk worst.ticker worst.returnPercent)

/-- The "assign awards and what-if messages" loop of `settleGame`. -/
def assignAwards (awardsMap : List (String × List Award)) (allResults : List Result) :
    List Result → Option (List Result)
  | [] => some []
  | result :: rest => do
    let wim ← generateWhatIfMessage result allResults
    let rest' ← assignAwards awardsMap allResults rest
    some ({ result with
      awards := mapGetD awardsMap result.playerId
      whatIfMessage := wim } :: rest')

/-- The batched persistence loop of `settleGame`: for each result, write
the result document and its leaderboard entry (built with
`getBestPosition` / `getWorstPosition`, which crash on an empty
portfolio). -/
def persistResults (gameCode : String) :
    List Result → List (String × Result) × List (String × LeaderboardEntry) →
    Option (List (String × Result) × List (String × LeaderboardEntry))
  | [], acc => some acc
  | result :: rest, acc => do
    let bp ← getBestPosition result.positionResults
    let wp ← getWorstPosition result.positionResults
    let entry := LeaderboardEntry.mk gameCode result.rank result.playerId result.nickname
      result.portfolioReturnPercent result.finalValue result.awards bp wp
    persistResults gameCode rest
      (setDoc acc.1 result.resultId result, setDoc acc.2 result.resultId entry)

/-- Source `updateUserStats`: for each result, load the player document
(crash when absent), skip players without a linked user id (JavaScript
falsiness also skips the empty string) and results whose user document
does not exist, and otherwise fold the result into the user's running
statistics, rounding the rational statistics to 2 decimals at write. -/
def updateUserStats : World → List Result → Option World
  | w, [] => some w
  | w, result :: rest => do
    let player ← lookupDoc w.players result.playerId
    match player.userId with
    | none => updateUserStats w rest
    | some userId =>
      if userId = "" then updateUserStats w rest
      else
        match lookupDoc w.users userId with
        | none => updateUserStats w rest
        | some userDoc =>
          let currentStats := userDoc.stats.getD (UserStats.mk 0 0 0 0 0)
          let newGamesPlayed := currentStats.gamesPlayed + 1
          let newGamesWon := currentStats.gamesWon + (if result.rank == 1 then 1 else 0)
          let newTotalReturns := currentStats.totalReturns + result.portfolioReturnPercent
          let newBestReturn := max currentStats.bestReturn result.portfolioReturnPercent
          let totalRankSum := currentStats.averageRank * currentStats.gamesPlayed + (result.rank : Rat)
          let newAverageRank := totalRankSum / newGamesPlayed
          let w' := { w with users := updateDoc w.users userId (fun u =>
            { u with stats := some (UserStats.mk newGamesPlayed newGamesWon
                (roundTo newTotalReturns 2) (roundTo newBestReturn 2)
                (roundTo newAverageRank 2)) }) }
          updateUserStats w' rest

/-- The `GAME_SETTLED` call to `createAuditLog`: append an audit entry. -/
def createAuditLog (w : World) (now : Nat) (action actorId targetType targetId : String)
    (playerCount : Nat) (winner : Option String) : World :=
  { w with auditLog := w.auditLog ++
      [AuditEntry.mk action actorId targetType targetId playerCount winner now] }

/-- Source `settleGame`. `none` models a thrown exception (the game
document missing when its `status` is read, or a `reduce` crash on an
empty portfolio); `some w'` is normal completion with final store `w'`.
The two early returns — results already exist, or the game already
`ENDED` — change nothing. -/
def settleGame (env : Env) (w : World) (gameCode : String) : Option World :=
  let game? := lookupDoc w.games gameCode
  let existingResults := resultsForGame w.results gameCode
  if existingResults.isEmpty = false then some w
  else do
    let game ← game?
    if game.status = GameStatus.ENDED then some w
    else
      let players := playersForGame w.players gameCode
      let finalPrices := fetchFinalPrices env w.priceSnapshots game.tickers
      let results := players.map (computePlayerResult env.now gameCode finalPrices players.length)
      let results := rankResults results
      let awardsMap := calculateAwards results
      let results ← assignAwards awardsMap results results
      let persisted ← persistResults gameCode results (w.results, w.leaderboard)
      let newGames := updateDoc w.games gameCode (fun g =>
        { g with status := GameStatus.ENDED, endedAt := some env.now })
      let w1 := { w with results := persisted.1, leaderboard := persisted.2, games := newGames }
      let w2 ← updateUserStats w1 results
      let w3 := createAuditLog w2 env.now "GAME_SETTLED" "system" "GAME" gameCode
        results.length ((results.find? (fun r => r.rank == 1)).map (fun r => r.nickname))
      some w3

/-- Error codes of the callable entry points (`functions.https.HttpsError`),
plus `internal` for an exception escaping `settleGame`. -/
inductive HttpsErr where
  | unauthenticated
  | notFound
  | permissionDenied
  | failedPrecondition
  | internal
deriving DecidableEq

/-- Source `forceSettleGame`: requires authentication, an existing game,
the caller to be the game's creator and the game to be `LIVE`, then
delegates to `settleGame`. -/
def forceSettleGame (env : Env) (w : World) (auth : Option String)
    (gameCode : String) : Except HttpsErr World :=
  match auth with
  | none => Except.error HttpsErr.unauthenticated
  | some uid =>
    match lookupDoc w.games gameCode with
    | none => Except.error HttpsErr.notFound
    | some game =>
      if game.creatorId ≠ uid then Except.error HttpsErr.permissionDenied
      else if game.status ≠ GameStatus.LIVE then Except.error HttpsErr.failedPrecondition
      else
        match settleGame env w gameCode with
        | some w' => Except.ok w'
        | none => Except.error HttpsErr.internal

/-! Concrete example data used by the closed (witness / counterexample)
theorems below. -/

/-- A deterministic environment for concrete runs. -/
def envZero : Env := Env.mk 1000 "2026-01-01" (fun _ => 0)

/-- A `DRAFT` game document. -/
def draftGame : Game :=
  Game.mk "WS-0001" "alice" GameStatus.DRAFT [] DataQualityFlag.OK none

/-- A `DRAFT` game with no players and no persisted results. -/
def draftWorld : World :=
  World.mk [("WS-0001", draftGame)] [] [] [] [] [] []

/-- An `ENDED` game document. -/
def endedGame : Game :=
  Game.mk "WS-0002" "alice" GameStatus.ENDED [] DataQualityFlag.OK (some 5)

/-- An `ENDED` game with no persisted results. -/
def endedWorld : World :=
  World.mk [("WS-0002", endedGame)] [] [] [] [] [] []

/-- A `LIVE`, zero-player game document. -/
def liveGame : Game :=
  Game.mk "WS-0003" "alice" GameStatus.LIVE [] DataQualityFlag.OK none

/-- A `LIVE`, zero-player game about to be settled. -/
def liveWorld : World :=
  World.mk [("WS-0003", liveGame)] [] [] [] [] [] []

/-- A `LIVE`, zero-player game whose ticker list contains `AAPL`, with no
persisted snapshot — settlement will synthesize the final price. -/
def liveGameAAPL : Game :=
  Game.mk "WS-0004" "alice" GameStatus.LIVE ["AAPL"] DataQualityFlag.OK none

/-- World holding `liveGameAAPL` and no snapshot for `AAPL`. -/
def liveWorldAAPL : World :=
  World.mk [("WS-0004", liveGameAAPL)] [] [] [] [] [] []

/-- A concrete player: 100 shares of `AAPL` bought at 100 with the full
10,000-credit budget, submitted at t=42. -/
def exPlayer : Player :=
  Player.mk "p1" "G" (some "u1") "Ana"
    [PortfolioItem.mk "AAPL" 10000 100 100] 10000 42

/-- A concrete resolved price map: `AAPL` closed at 110. -/
def exPrices : List (String × Rat) := [("AAPL", 110)]

/-- A concrete unranked result: return 5%, submitted at t=10. -/
def exResultA : Result :=
  Result.mk "G_p1" "G" "p1" "Ana" [] 5 10000 10500 0 2 [] none 10 99

/-- A concrete unranked result: return 5% (tied with `exResultA`),
submitted later, at t=20. -/
def exResultB : Result :=
  Result.mk "G_p2" "G" "p2" "Bob" [] 5 10000 10500 0 2 [] none 20 99

/-- `liveWorld` after settlement: the game is `ENDED` and a `GAME_SETTLED`
audit entry exists; with zero players nothing else changes. -/
def liveWorldSettled : World :=
  World.mk [("WS-0003", Game.mk "WS-0003" "alice" GameStatus.ENDED []
    DataQualityFlag.OK (some 1000))] [] [] [] [] []
    [AuditEntry.mk "GAME_SETTLED" "system" "GAME" "WS-0003" 0 none 1000]

/-- A concrete position result: `AAPL` went from 100 to 150, +50%. -/
def exPos50 : PositionResult :=
  PositionResult.mk "AAPL" 10000 100 100 150 50 15000

/-- A concrete ranked result: rank 2 of 2, portfolio return 50%, whose
single position also returned 50%. -/
def exResultC : Result :=
  Result.mk "G_p3" "G" "p3" "Cleo" [exPos50] 50 10000 15000 2 2 [] none 30 99

/-- A portfolio position on ticker MISS, which no price map resolves. -/
def exPosMissing : PortfolioItem :=
  PortfolioItem.mk "MISS" 5000 50 100

/-- A user document with all statistics at zero. -/
def exStatsUser : UserDoc := UserDoc.mk (some (UserStats.mk 0 0 0 0 0))

/-- A player linked to user u9. -/
def exStatsPlayer : Player := Player.mk "p9" "G" (some "u9") "Nia" [] 10000 5

/-- A rank-1 result for p9 whose portfolio return 0.005% is not
representable with 2 decimals. -/
def exResultHalf : Result :=
  Result.mk "G_p9" "G" "p9" "Nia" [] (1/200) 10000 10000 1 1 [] none 5 99

/-- World holding p9 and u9. -/
def exStatsWorld : World :=
  World.mk [] [("p9", exStatsPlayer)] [] [] [("u9", exStatsUser)] [] []

/-- `exStatsWorld` after `updateUserStats` folds in `exResultHalf`: one
game played and won, and `totalReturns` / `bestReturn` hold the
2-decimal rounding 0.01 of the true accumulated return 0.005. -/
def exStatsWorldStepped : World :=
  World.mk [] [("p9", exStatsPlayer)] [] []
    [("u9", UserDoc.mk (some (UserStats.mk 1 1 (1/100) (1/100) 1)))] [] []

/-! Lemmas about the stable sort and `rankResults`. -/

theorem insertSorted_perm (le : α → α → Bool) (a : α) (l : List α) :
    List.Perm (insertSorted le a l) (a :: l) := by
  induction l with
  | nil => exact List.Perm.refl _
  | cons b bs ih =>
    unfold insertSorted
    by_cases h : le b a = true
    · rw [if_pos h]
      exact (ih.cons b).trans (List.Perm.swap a b bs)
    · rw [if_neg h]

theorem insertSorted_pairwise (le : α → α → Bool)
    (htrans : ∀ x y z, le x y = true → le y z = true → le x z = true)
    (htotal : ∀ x y, le x y = true ∨ le y x = true)
    (a : α) (l : List α) (hl : l.Pairwise (fun x y => le x y = true)) :
    (insertSorted le a l).Pairwise (fun x y => le x y = true) := by
  induction l with
  | nil => simp [insertSorted]
  | cons b bs ih =>
    rcases List.pairwise_cons.mp hl with ⟨hb, hbs⟩
    unfold insertSorted
    by_cases h : le b a = true
    · rw [if_pos h]
      refine List.pairwise_cons.mpr ⟨?_, ih hbs⟩
      intro c hc
      rcases List.mem_cons.mp ((insertSorted_perm le a bs).mem_iff.mp hc) with hc' | hc'
      · rw [hc']
        exact h
      · exact hb c hc'
    · rw [if_neg h]
      have hab : le a b = true := by
        rcases htotal a b with h' | h'
        · exact h'
        · exact absurd h' h
      refine List.pairwise_cons.mpr ⟨?_, hl⟩
      intro c hc
      rcases List.mem_cons.mp hc with hc' | hc'
      · rw [hc']
        exact hab
      · exact htrans a b c hab (hb c hc')

theorem stableSort_perm_aux (le : α → α → Bool) (l acc : List α) :
    List.Perm (l.foldl (fun acc a => insertSorted le a acc) acc) (acc ++ l) := by
  induction l generalizing acc with
  | nil => simp
  | cons a l' ih =>
    simp only [List.foldl_cons]
    refine (ih (insertSorted le a acc)).trans ?_
    refine (((insertSorted_perm le a acc).append_right l').trans ?_)
    rw [List.cons_append]
    exact List.perm_middle.symm

theorem stableSort_perm (le : α → α → Bool) (l : List α) :
    List.Perm (stableSort le l) l := by
  simpa using stableSort_perm_aux le l []

theorem stableSort_pairwise_aux (le : α → α → Bool)
    (htrans : ∀ x y z, le x y = true → le y z = true → le x z = true)
    (htotal : ∀ x y, le x y = true ∨ le y x = true)
    (l acc : List α) (hacc : acc.Pairwise (fun x y => le x y = true)) :
    (l.foldl (fun acc a => insertSorted le a acc) acc).Pairwise
      (fun x y => le x y = true) := by
  induction l generalizing acc with
  | nil => exact hacc
  | cons a l' ih =>
    exact ih _ (insertSorted_pairwise le htrans htotal a acc hacc)

theorem stableSort_pairwise (le : α → α → Bool)
    (htrans : ∀ x y z, le x y = true → le y z = true → le x z = true)
    (htotal : ∀ x y, le x y = true ∨ le y x = true) (l : List α) :
    (stableSort le l).Pairwise (fun x y => le x y = true) :=
  stableSort_pairwise_aux le htrans htotal l [] (List.Pairwise.nil)

theorem resultLE_iff (a b : Result) :
    resultLE a b = true ↔
      b.portfolioReturnPercent < a.portfolioReturnPercent ∨
        (a.portfolioReturnPercent = b.portfolioReturnPercent ∧
          a.submittedAt ≤ b.submittedAt) := by
  unfold resultLE compareResults
  by_cases h : b.portfolioReturnPercent = a.portfolioReturnPercent
  · rw [if_neg (not_not_intro h)]
    simp only [decide_eq_true_eq]
    constructor
    · intro hle
      refine Or.inr ⟨h.symm, ?_⟩
      have h2 : (a.submittedAt : Rat) ≤ (b.submittedAt : Rat) := sub_nonpos.mp hle
      exact_mod_cast h2
    · rintro (hlt | ⟨_, hle⟩)
      · exact absurd h.symm (ne_of_gt hlt)
      · refine sub_nonpos.mpr ?_
        exact_mod_cast hle
  · rw [if_pos h]
    simp only [decide_eq_true_eq]
    constructor
    · intro hle
      exact Or.inl (lt_of_le_of_ne (sub_nonpos.mp hle) h)
    · rintro (hlt | ⟨heq, _⟩)
      · exact sub_nonpos.mpr hlt.le
      · exact absurd heq.symm h

theorem resultLE_trans (x y z : Result) (hxy : resultLE x y = true)
    (hyz : resultLE y z = true) : resultLE x z = true := by
  rw [resultLE_iff] at hxy hyz ⊢
  rcases hxy with h1 | ⟨h1, h1'⟩ <;> rcases hyz with h2 | ⟨h2, h2'⟩
  · exact Or.inl (h2.trans h1)
  · exact Or.inl (lt_of_eq_of_lt h2.symm h1)
  · exact Or.inl (lt_of_lt_of_eq h2 h1.symm)
  · exact Or.inr ⟨h1.trans h2, h1'.trans h2'⟩

theorem resultLE_total (x y : Result) :
    resultLE x y = true ∨ resultLE y x = true := by
  rw [resultLE_iff, resultLE_iff]
  rcases lt_trichotomy x.portfolioReturnPercent y.portfolioReturnPercent with h | h | h
  · exact Or.inr (Or.inl h)
  · rcases Nat.le_total x.submittedAt y.submittedAt with h' | h'
    · exact Or.inl (Or.inr ⟨h, h'⟩)
    · exact Or.inr (Or.inr ⟨h.symm, h'⟩)
  · exact Or.inl (Or.inl h)

theorem rankResults_length (l : List Result) :
    (rankResults l).length = l.length := by
  unfold rankResults
  rw [List.length_map, List.enum_length, (stableSort_perm resultLE l).length_eq]

theorem stableSort_length_eq_rank (l : List Result) (i : Nat)
    (h : i < (rankResults l).length) : i < (stableSort resultLE l).length := by
  rw [(stableSort_perm resultLE l).length_eq, ← rankResults_length l]
  exact h

theorem rankResults_getElem (l : List Result) (i : Nat)
    (h : i < (rankResults l).length) (h2 : i < (stableSort resultLE l).length) :
    (rankResults l)[i] = setRank ((stableSort resultLE l)[i]) (i + 1) := by
  unfold rankResults
  rw [List.getElem_map, List.getElem_enum]

theorem rank_update_ret (r : Result) (n : Nat) :
    (setRank r n).portfolioReturnPercent = r.portfolioReturnPercent := rfl

theorem rank_update_sub (r : Result) (n : Nat) :
    (setRank r n).submittedAt = r.submittedAt := rfl

theorem rank_update_rank (r : Result) (n : Nat) :
    (setRank r n).rank = n := rfl

theorem rankResults_map_rank (l : List Result) :
    (rankResults l).map (fun r => r.rank) = List.range' 1 l.length := by
  apply List.ext_getElem
  · rw [List.length_map, rankResults_length, List.length_range']
  · intro i h1 h2
    have hlt : i < (rankResults l).length := by
      rw [List.length_map] at h1
      exact h1
    have h3 := stableSort_length_eq_rank l i hlt
    rw [List.getElem_map, List.getElem_range', rankResults_getElem l i hlt h3,
      rank_update_rank]
    omega

theorem rankResults_pairwise (l : List Result) :
    (rankResults l).Pairwise (fun a b =>
      b.portfolioReturnPercent < a.portfolioReturnPercent ∨
        (a.portfolioReturnPercent = b.portfolioReturnPercent ∧
          a.submittedAt ≤ b.submittedAt)) := by
  have hs := stableSort_pairwise resultLE resultLE_trans resultLE_total l
  rw [List.pairwise_iff_getElem] at hs ⊢
  intro i j hi hj hij
  have hi' := stableSort_length_eq_rank l i hi
  have hj' := stableSort_length_eq_rank l j hj
  rw [rankResults_getElem l i hi hi', rankResults_getElem l j hj hj']
  have h := hs i j hi' hj' hij
  rw [resultLE_iff] at h
  simpa [rank_update_ret, rank_update_sub] using h

theorem rankResults_perm_eraseRank (l : List Result) :
    List.Perm ((rankResults l).map (fun r => setRank r 0))
      (l.map (fun r => setRank r 0)) := by
  have h1 : (rankResults l).map (fun r => setRank r 0) =
      (stableSort resultLE l).map (fun r => setRank r 0) := by
    unfold rankResults
    rw [List.map_map]
    have h2 : ((fun r => setRank r 0) ∘
        (fun p : Nat × Result => setRank p.2 (p.1 + 1))) =
        ((fun r : Result => setRank r 0) ∘ Prod.snd) := rfl
    rw [h2, ← List.map_map, List.enum_map_snd]
  rw [h1]
  exact (stableSort_perm resultLE l).map _

theorem rankResults_tiebreak (l : List Result) (a b : Result)
    (ha : a ∈ rankResults l) (hb : b ∈ rankResults l)
    (heq : a.portfolioReturnPercent = b.portfolioReturnPercent)
    (hsub : a.submittedAt < b.submittedAt) : a.rank < b.rank := by
  rcases List.getElem_of_mem ha with ⟨i, hi, hia⟩
  rcases List.getElem_of_mem hb with ⟨j, hj, hjb⟩
  have hi' := stableSort_length_eq_rank l i hi
  have hj' := stableSort_length_eq_rank l j hj
  rw [rankResults_getElem l i hi hi'] at hia
  rw [rankResults_getElem l j hj hj'] at hjb
  have har : a.rank = i + 1 := by rw [← hia, rank_update_rank]
  have hbr : b.rank = j + 1 := by rw [← hjb, rank_update_rank]
  rcases Nat.lt_trichotomy i j with hij | hij | hij
  · omega
  · exfalso
    subst hij
    have hab : a = b := hia.symm.trans hjb
    rw [hab] at hsub
    exact absurd hsub (lt_irrefl _)
  · exfalso
    have hp := stableSort_pairwise resultLE resultLE_trans resultLE_total l
    rw [List.pairwise_iff_getElem] at hp
    have h := hp j i hj' hi' hij
    rw [resultLE_iff] at h
    have haret : a.portfolioReturnPercent =
        ((stableSort resultLE l)[i]).portfolioReturnPercent := by
      rw [← hia, rank_update_ret]
    have hasub : a.submittedAt = ((stableSort resultLE l)[i]).submittedAt := by
      rw [← hia, rank_update_sub]
    have hbret : b.portfolioReturnPercent =
        ((stableSort resultLE l)[j]).portfolioReturnPercent := by
      rw [← hjb, rank_update_ret]
    have hbsub : b.submittedAt = ((stableSort resultLE l)[j]).submittedAt := by
      rw [← hjb, rank_update_sub]
    rcases h with h | ⟨h, h'⟩
    · rw [← haret, ← hbret] at h
      rw [heq] at h
      exact absurd h (lt_irrefl _)
    · rw [← hasub, ← hbsub] at h'
      omega

/-! Lemmas about the no-op paths of `settleGame`. -/

theorem settleGame_noop (env : Env) (w : World) (g : String) (game : Game)
    (hg : lookupDoc w.games g = some game)
    (h : game.status = GameStatus.ENDED ∨ resultsForGame w.results g ≠ []) :
    settleGame env w g = some w := by
  simp only [settleGame]
  rw [hg]
  cases hres : (resultsForGame w.results g).isEmpty with
  | false => rw [if_pos rfl]
  | true =>
    rw [if_neg (by simp)]
    have hres' : resultsForGame w.results g = [] := List.isEmpty_iff.mp hres
    rcases h with hst | hne
    · show ((some game).bind _) = some w
      rw [Option.some_bind]
      rw [if_pos hst]
    · exact absurd hres' hne

theorem settleGame_noop_results (env : Env) (w : World) (g : String)
    (h : (resultsForGame w.results g).isEmpty = false) :
    settleGame env w g = some w := by
  simp only [settleGame]
  rw [if_pos h]

theorem setDoc_mem (coll : List (String × α)) (k : String) (v : α) :
    (k, v) ∈ setDoc coll k v := by
  unfold setDoc
  by_cases h : coll.any (fun p => p.1 == k) = true
  · rw [if_pos h]
    rcases List.any_eq_true.mp h with ⟨p, hp, hpk⟩
    have hmem := List.mem_map_of_mem (fun q : String × α => if q.1 == k then (k, v) else q) hp
    dsimp only at hmem
    rw [if_pos hpk] at hmem
    exact hmem
  · rw [if_neg h]
    exact List.mem_append_right _ (List.mem_singleton.mpr rfl)

theorem setDoc_exists_preserved (coll : List (String × α)) (k : String) (v : α)
    (P : α → Prop) (hv : P v) (h : ∃ p ∈ coll, P p.2) :
    ∃ p ∈ setDoc coll k v, P p.2 := by
  rcases h with ⟨p, hp, hPp⟩
  unfold setDoc
  by_cases hany : coll.any (fun p => p.1 == k) = true
  · rw [if_pos hany]
    have hmem := List.mem_map_of_mem (fun q : String × α => if q.1 == k then (k, v) else q) hp
    dsimp only at hmem
    by_cases hk : (p.1 == k) = true
    · rw [if_pos hk] at hmem
      exact ⟨(k, v), hmem, hv⟩
    · rw [if_neg hk] at hmem
      exact ⟨p, hmem, hPp⟩
  · rw [if_neg hany]
    exact ⟨p, List.mem_append_left _ hp, hPp⟩

theorem persistResults_nonempty (g : String) :
    ∀ (results : List Result)
      (acc res' : List (String × Result) × List (String × LeaderboardEntry)),
      persistResults g results acc = some res' →
      (∀ r ∈ results, r.gameCode = g) → results ≠ [] →
      ∃ p ∈ res'.1, p.2.gameCode = g := by
  intro results
  induction results with
  | nil => exact fun _ _ _ _ h => absurd rfl h
  | cons r rest ih =>
    intro acc res' hp hall _
    unfold persistResults at hp
    rcases Option.bind_eq_some.mp hp with ⟨bp, _, hp2⟩
    rcases Option.bind_eq_some.mp hp2 with ⟨wp, _, hp3⟩
    cases rest with
    | nil =>
      have hacc : res' = (setDoc acc.1 r.resultId r, _) := (Option.some.inj hp3).symm
      refine ⟨(r.resultId, r), ?_, hall r (List.mem_cons_self r [])⟩
      rw [hacc]
      exact setDoc_mem acc.1 r.resultId r
    | cons r2 rest2 =>
      exact ih _ res' hp3 (fun x hx => hall x (List.mem_cons_of_mem r hx))
        (List.cons_ne_nil r2 rest2)

theorem updateUserStats_preserves :
    ∀ (results : List Result) (w w2 : World),
      updateUserStats w results = some w2 →
      w2.games = w.games ∧ w2.results = w.results ∧
        w2.leaderboard = w.leaderboard ∧ w2.players = w.players := by
  intro results
  induction results with
  | nil =>
    intro w w2 h
    have h2 : w = w2 := Option.some.inj h
    rw [h2]
    exact ⟨rfl, rfl, rfl, rfl⟩
  | cons r rest ih =>
    intro w w2 h
    unfold updateUserStats at h
    rcases Option.bind_eq_some.mp h with ⟨player, _, h2⟩
    cases huid : player.userId with
    | none =>
      rw [huid] at h2
      exact ih w w2 h2
    | some uid =>
      rw [huid] at h2
      dsimp only at h2
      by_cases hempty : uid = ""
      · rw [if_pos hempty] at h2
        exact ih w w2 h2
      · rw [if_neg hempty] at h2
        cases hud : lookupDoc w.users uid with
        | none =>
          rw [hud] at h2
          exact ih w w2 h2
        | some userDoc =>
          rw [hud] at h2
          dsimp only at h2
          rcases ih _ w2 h2 with ⟨hg, hr, hl, hpl⟩
          exact ⟨hg, hr, hl, hpl⟩

theorem lookupDoc_updateDoc (coll : List (String × α)) (k : String) (f : α → α) :
    lookupDoc (updateDoc coll k f) k = (lookupDoc coll k).map f := by
  induction coll with
  | nil => rfl
  | cons p ps ih =>
    unfold updateDoc lookupDoc at ih ⊢
    by_cases h : (p.1 == k) = true
    · rw [List.map_cons, if_pos h]
      rw [List.find?_cons_of_pos _ (by exact h), List.find?_cons_of_pos _ (by exact h)]
      rfl
    · rw [List.map_cons, if_neg h]
      rw [List.find?_cons_of_neg _ (by exact h), List.find?_cons_of_neg _ (by exact h)]
      exact ih

theorem rank_update_gameCode (r : Result) (n : Nat) :
    (setRank r n).gameCode = r.gameCode := rfl

theorem rankResults_nil : rankResults [] = [] := rfl

theorem rankResults_gameCode (l : List Result) (g : String)
    (hall : ∀ x ∈ l, x.gameCode = g) :
    ∀ y ∈ rankResults l, y.gameCode = g := by
  intro y hy
  rcases List.getElem_of_mem hy with ⟨i, hi, hiy⟩
  have hi' := stableSort_length_eq_rank l i hi
  rw [rankResults_getElem l i hi hi'] at hiy
  have hmem : (stableSort resultLE l)[i] ∈ stableSort resultLE l := List.getElem_mem hi'
  have hmem' : (stableSort resultLE l)[i] ∈ l := (stableSort_perm resultLE l).mem_iff.mp hmem
  rw [← hiy, rank_update_gameCode]
  exact hall _ hmem'

theorem assignAwards_shape (m : List (String × List Award)) (all : List Result) :
    ∀ (rs rs' : List Result), assignAwards m all rs = some rs' →
      (rs ≠ [] → rs' ≠ []) ∧ (∀ g, (∀ x ∈ rs, x.gameCode = g) → ∀ y ∈ rs', y.gameCode = g) := by
  intro rs
  induction rs with
  | nil =>
    intro rs' h
    have h2 : rs' = [] := (Option.some.inj h).symm
    constructor
    · exact fun hne => absurd rfl hne
    · intro g _ y hy
      rw [h2] at hy
      exact absurd hy (List.not_mem_nil y)
  | cons r rest ih =>
    intro rs' h
    unfold assignAwards at h
    rcases Option.bind_eq_some.mp h with ⟨wim, _, h2⟩
    rcases Option.bind_eq_some.mp h2 with ⟨rest', hrest, h3⟩
    have hrs' : rs' = _ :: rest' := (Option.some.inj h3).symm
    constructor
    · intro _
      rw [hrs']
      exact List.cons_ne_nil _ _
    · intro g hall y hy
      rw [hrs'] at hy
      rcases List.mem_cons.mp hy with hy' | hy'
      · rw [hy']
        exact hall r (List.mem_cons_self r rest)
      · exact (ih rest' hrest).2 g (fun x hx => hall x (List.mem_cons_of_mem r hx)) y hy'

theorem resultsForGame_ne_nil (results : List (String × Result)) (g : String)
    (p : String × Result) (hp : p ∈ results) (hg : p.2.gameCode = g) :
    resultsForGame results g ≠ [] := by
  unfold resultsForGame
  intro hcontra
  rw [List.map_eq_nil_iff] at hcontra
  have := List.filter_eq_nil_iff.mp hcontra p hp
  apply this
  rw [hg]
  exact beq_self_eq_true g

/-! Lemmas about `lookupDoc` / `setDoc` and the price resolver. -/

theorem find?_map_replace (coll : List (String × α)) (k t : String) (v : α)
    (h : t ≠ k) :
    (coll.map (fun p => if p.1 == k then (k, v) else p)).find? (fun p => p.1 == t) =
      coll.find? (fun p => p.1 == t) := by
  induction coll with
  | nil => rfl
  | cons p ps ih =>
    rw [List.map_cons]
    by_cases hpk : (p.1 == k) = true
    · rw [if_pos hpk]
      have hp1 : p.1 = k := beq_iff_eq.mp hpk
      have hpt : (p.1 == t) = false := by
        rw [hp1]
        exact beq_eq_false_iff_ne.mpr (Ne.symm h)
      have hkt : ((k, v).1 == t) = false := beq_eq_false_iff_ne.mpr (Ne.symm h)
      rw [@List.find?_cons_of_neg _ (fun q => q.1 == t) (k, v) _ (by simp [hkt]),
        @List.find?_cons_of_neg _ (fun q => q.1 == t) p _ (by simp [hpt])]
      exact ih
    · rw [if_neg hpk]
      by_cases hpt : (p.1 == t) = true
      · rw [@List.find?_cons_of_pos _ (fun q => q.1 == t) p _ hpt,
          @List.find?_cons_of_pos _ (fun q => q.1 == t) p _ hpt]
      · rw [@List.find?_cons_of_neg _ (fun q => q.1 == t) p _ (by simpa using hpt),
          @List.find?_cons_of_neg _ (fun q => q.1 == t) p _ (by simpa using hpt)]
        exact ih

theorem find?_map_replace_self (coll : List (String × α)) (k : String) (v : α)
    (hany : (coll.any (fun p => p.1 == k)) = true) :
    (coll.map (fun p => if p.1 == k then (k, v) else p)).find? (fun p => p.1 == k) =
      some (k, v) := by
  induction coll with
  | nil => simp at hany
  | cons p ps ih =>
    rw [List.map_cons]
    by_cases hpk : (p.1 == k) = true
    · rw [if_pos hpk]
      rw [@List.find?_cons_of_pos _ (fun q => q.1 == k) (k, v) _ (by exact beq_self_eq_true k)]
    · rw [if_neg hpk, @List.find?_cons_of_neg _ (fun q => q.1 == k) p _ (by simpa using hpk)]
      apply ih
      rcases List.any_eq_true.mp hany with ⟨q, hq, hqk⟩
      rcases List.mem_cons.mp hq with hq' | hq'
      · rw [hq'] at hqk
        exact absurd hqk hpk
      · exact List.any_eq_true.mpr ⟨q, hq', hqk⟩

theorem lookupDoc_setDoc_ne (coll : List (String × α)) (k t : String) (v : α)
    (h : t ≠ k) : lookupDoc (setDoc coll k v) t = lookupDoc coll t := by
  unfold setDoc lookupDoc
  by_cases hany : (coll.any (fun p => p.1 == k)) = true
  · rw [if_pos hany, find?_map_replace coll k t v h]
  · rw [if_neg hany, List.find?_append]
    have hsing : ([(k, v)].find? (fun p => p.1 == t)) = none := by
      rw [@List.find?_cons_of_neg _ (fun q => q.1 == t) (k, v) _
        (by simp [beq_eq_false_iff_ne.mpr (Ne.symm h)])]
      rfl
    rw [hsing]
    cases coll.find? (fun p => p.1 == t) <;> rfl

theorem lookupDoc_setDoc_self (coll : List (String × α)) (k : String) (v : α) :
    lookupDoc (setDoc coll k v) k = some v := by
  unfold setDoc lookupDoc
  by_cases hany : (coll.any (fun p => p.1 == k)) = true
  · rw [if_pos hany, find?_map_replace_self coll k v hany]
    rfl
  · rw [if_neg hany, List.find?_append]
    have hnone : coll.find? (fun p => p.1 == k) = none := by
      rw [List.find?_eq_none]
      intro p hp hcontra
      exact hany (List.any_eq_true.mpr ⟨p, hp, hcontra⟩)
    rw [hnone]
    rw [@List.find?_cons_of_pos _ (fun q => q.1 == k) (k, v) _ (by exact beq_self_eq_true k)]
    rfl

theorem lookupDoc_setDoc_isSome (coll : List (String × α)) (k t : String) (v : α)
    (h : (lookupDoc coll t).isSome = true) :
    (lookupDoc (setDoc coll k v) t).isSome = true := by
  by_cases htk : t = k
  · rw [htk, lookupDoc_setDoc_self]
    rfl
  · rw [lookupDoc_setDoc_ne coll k t v htk]
    exact h

theorem fetchStep_lookup (env : Env) (snaps : List (String × PriceSnapshot))
    (st : List (String × Rat) × Nat) (tk t : String) :
    ((lookupDoc (fetchStep env snaps st tk).1 t).isSome = true) ↔
      ((lookupDoc st.1 t).isSome = true ∨
        (t = tk ∧ ((lookupDoc snaps (env.today ++ "_" ++ t)).isSome = true ∨
          (findStockByTicker t).isSome = true))) := by
  unfold fetchStep
  cases hsnap : lookupDoc snaps (env.today ++ "_" ++ tk) with
  | some priceDoc =>
    dsimp only
    constructor
    · intro hl
      by_cases htk : t = tk
      · exact Or.inr ⟨htk, Or.inl (by rw [htk, hsnap]; rfl)⟩
      · rw [lookupDoc_setDoc_ne st.1 tk t _ htk] at hl
        exact Or.inl hl
    · rintro (hl | ⟨htk, _⟩)
      · exact lookupDoc_setDoc_isSome st.1 tk t _ hl
      · rw [htk, lookupDoc_setDoc_self]
        rfl
  | none =>
    cases hstock : findStockByTicker tk with
    | some stockData =>
      dsimp only
      constructor
      · intro hl
        by_cases htk : t = tk
        · exact Or.inr ⟨htk, Or.inr (by rw [htk, hstock]; rfl)⟩
        · rw [lookupDoc_setDoc_ne st.1 tk t _ htk] at hl
          exact Or.inl hl
      · rintro (hl | ⟨htk, _⟩)
        · exact lookupDoc_setDoc_isSome st.1 tk t _ hl
        · rw [htk, lookupDoc_setDoc_self]
          rfl
    | none =>
      dsimp only
      constructor
      · exact fun hl => Or.inl hl
      · rintro (hl | ⟨htk, hc | hc⟩)
        · exact hl
        · rw [htk, hsnap] at hc
          exact absurd hc (by simp)
        · rw [htk, hstock] at hc
          exact absurd hc (by simp)

theorem fetchFold_lookup (env : Env) (snaps : List (String × PriceSnapshot)) :
    ∀ (tickers : List String) (st : List (String × Rat) × Nat) (t : String),
      ((lookupDoc (tickers.foldl (fetchStep env snaps) st).1 t).isSome = true) ↔
        ((lookupDoc st.1 t).isSome = true ∨
          (t ∈ tickers ∧ ((lookupDoc snaps (env.today ++ "_" ++ t)).isSome = true ∨
            (findStockByTicker t).isSome = true))) := by
  intro tickers
  induction tickers with
  | nil =>
    intro st t
    simp
  | cons tk rest ih =>
    intro st t
    rw [List.foldl_cons, ih (fetchStep env snaps st tk) t]
    rw [fetchStep_lookup env snaps st tk t]
    constructor
    · rintro ((hl | ⟨htk, hc⟩) | ⟨hmem, hc⟩)
      · exact Or.inl hl
      · exact Or.inr ⟨htk ▸ List.mem_cons_self tk rest, hc⟩
      · exact Or.inr ⟨List.mem_cons_of_mem tk hmem, hc⟩
    · rintro (hl | ⟨hmem, hc⟩)
      · exact Or.inl (Or.inl hl)
      · rcases List.mem_cons.mp hmem with htk | hmem'
        · exact Or.inl (Or.inr ⟨htk, hc⟩)
        · exact Or.inr ⟨hmem', hc⟩

theorem map_updateDoc_proj (coll : List (String × α)) (k : String) (f : α → α)
    (proj : α → β) (h : ∀ x, proj (f x) = proj x) :
    (updateDoc coll k f).map (fun p => (p.1, proj p.2)) =
      coll.map (fun p => (p.1, proj p.2)) := by
  unfold updateDoc
  rw [List.map_map]
  apply List.map_congr_left
  intro p _
  by_cases hpk : (p.1 == k) = true
  · simp only [Function.comp, if_pos hpk, h]
  · simp only [Function.comp, if_neg hpk]

theorem settleGame_games_eq (env : Env) (w : World) (g : String) (w' : World)
    (h : settleGame env w g = some w') :
    w'.games = w.games ∨
      w'.games = updateDoc w.games g
        (fun g0 => { g0 with status := GameStatus.ENDED, endedAt := some env.now }) := by
  simp only [settleGame] at h
  by_cases hres : (resultsForGame w.results g).isEmpty = false
  · rw [if_pos hres] at h
    rw [← Option.some.inj h]
    exact Or.inl rfl
  · rw [if_neg hres] at h
    cases hg : lookupDoc w.games g with
    | none =>
      rw [hg] at h
      exact absurd h (by simp)
    | some game =>
      rw [hg] at h
      simp only [Option.bind_eq_bind, Option.some_bind] at h
      by_cases hst : game.status = GameStatus.ENDED
      · rw [if_pos hst] at h
        rw [← Option.some.inj h]
        exact Or.inl rfl
      · rw [if_neg hst] at h
        rcases Option.bind_eq_some.mp h with ⟨results2, _, h2⟩
        rcases Option.bind_eq_some.mp h2 with ⟨persisted, _, h3⟩
        rcases Option.bind_eq_some.mp h3 with ⟨w2, hupd, h4⟩
        rcases updateUserStats_preserves results2 _ w2 hupd with ⟨hw2games, _, _, _⟩
        right
        rw [← Option.some.inj h4]
        exact hw2games

/-! Lemmas about the per-player result computation. -/

theorem positionFold (fp : List (String × Rat)) :
    ∀ (l : List PortfolioItem) (acc : List PositionResult × Rat),
      l.foldl (positionStep fp) acc =
        (acc.1 ++ l.map (positionResultOf fp), acc.2 + (l.map (rawPositionValue fp)).sum) := by
  intro l
  induction l with
  | nil =>
    intro acc
    simp
  | cons p l' ih =>
    intro acc
    rw [List.foldl_cons, ih (positionStep fp acc p)]
    unfold positionStep positionResultOf rawPositionValue
    simp only [List.map_cons, List.sum_cons]
    rw [List.append_assoc, List.singleton_append, add_assoc]

theorem computePlayerResult_positionResults (now : Nat) (g : String)
    (fp : List (String × Rat)) (tp : Nat) (player : Player) :
    (computePlayerResult now g fp tp player).positionResults =
      player.portfolio.map (positionResultOf fp) := by
  unfold computePlayerResult
  rw [positionFold fp player.portfolio ([], 0)]
  simp

theorem computePlayerResult_return (now : Nat) (g : String)
    (fp : List (String × Rat)) (tp : Nat) (player : Player) :
    (computePlayerResult now g fp tp player).portfolioReturnPercent =
      roundTo (calculateReturn TOTAL_BUDGET
        ((player.portfolio.map (rawPositionValue fp)).sum)) 4 := by
  unfold computePlayerResult
  rw [positionFold fp player.portfolio ([], 0)]
  simp

/-! Lemmas about the awards map. -/

/-- Player `pid` holds an award of type `ty` in the awards map `m`. -/
def awardedPlayer (m : List (String × List Award)) (pid : String)
    (ty : AwardType) : Prop :=
  ∃ p ∈ m, p.1 = pid ∧ ∃ a ∈ p.2, a.type = ty

theorem awardedPlayer_mapPush_other (m : List (String × List Award))
    (k : String) (a : Award) (pid : String) (ty : AwardType) (h : a.type ≠ ty) :
    awardedPlayer (mapPush m k a) pid ty ↔ awardedPlayer m pid ty := by
  unfold awardedPlayer mapPush
  constructor
  · rintro ⟨p', hp', hpid, x, hx, hty⟩
    rcases List.mem_map.mp hp' with ⟨p, hp, himg⟩
    by_cases hk : (p.1 == k) = true
    · rw [if_pos hk] at himg
      rw [← himg] at hpid hx
      rcases List.mem_append.mp hx with hx' | hx'
      · exact ⟨p, hp, hpid, x, hx', hty⟩
      · rw [List.mem_singleton.mp hx'] at hty
        exact absurd hty h
    · rw [if_neg hk] at himg
      rw [← himg] at hpid hx
      exact ⟨p, hp, hpid, x, hx, hty⟩
  · rintro ⟨p, hp, hpid, x, hx, hty⟩
    have hmem := List.mem_map_of_mem
      (fun q : String × List Award => if q.1 == k then (q.1, q.2 ++ [a]) else q) hp
    dsimp only at hmem
    by_cases hk : (p.1 == k) = true
    · rw [if_pos hk] at hmem
      exact ⟨(p.1, p.2 ++ [a]), hmem, hpid, x, List.mem_append_left _ hx, hty⟩
    · rw [if_neg hk] at hmem
      exact ⟨p, hmem, hpid, x, hx, hty⟩

theorem awardedPlayer_mapPush_elim (m : List (String × List Award))
    (k : String) (a : Award) (pid : String) (ty : AwardType) :
    awardedPlayer (mapPush m k a) pid ty →
      awardedPlayer m pid ty ∨ pid = k := by
  rintro ⟨p', hp', hpid, x, hx, hty⟩
  rcases List.mem_map.mp hp' with ⟨p, hp, himg⟩
  by_cases hk : (p.1 == k) = true
  · rw [if_pos hk] at himg
    rw [← himg] at hpid
    exact Or.inr (hpid ▸ (beq_iff_eq.mp hk)).symm.symm
  · rw [if_neg hk] at himg
    rw [← himg] at hpid hx
    exact Or.inl ⟨p, hp, hpid, x, hx, hty⟩

theorem awardedPlayer_mapPush_self (m : List (String × List Award))
    (k : String) (a : Award) (ty : AwardType) (h : a.type = ty)
    (hk : ∃ p ∈ m, p.1 = k) :
    awardedPlayer (mapPush m k a) k ty := by
  rcases hk with ⟨p, hp, hpk⟩
  have hbeq : (p.1 == k) = true := beq_iff_eq.mpr hpk
  have hmem := List.mem_map_of_mem
    (fun q : String × List Award => if q.1 == k then (q.1, q.2 ++ [a]) else q) hp
  dsimp only at hmem
  rw [if_pos hbeq] at hmem
  exact ⟨(p.1, p.2 ++ [a]), hmem, hpk, a,
    List.mem_append_right _ (List.mem_singleton.mpr rfl), h⟩

theorem keyExists_mapPush (m : List (String × List Award)) (k : String)
    (a : Award) (pid : String) :
    (∃ p ∈ mapPush m k a, p.1 = pid) ↔ (∃ p ∈ m, p.1 = pid) := by
  unfold mapPush
  constructor
  · rintro ⟨p', hp', hpid⟩
    rcases List.mem_map.mp hp' with ⟨p, hp, himg⟩
    by_cases hk : (p.1 == k) = true
    · rw [if_pos hk] at himg
      rw [← himg] at hpid
      exact ⟨p, hp, hpid⟩
    · rw [if_neg hk] at himg
      rw [← himg] at hpid
      exact ⟨p, hp, hpid⟩
  · rintro ⟨p, hp, hpid⟩
    have hmem := List.mem_map_of_mem
      (fun q : String × List Award => if q.1 == k then (q.1, q.2 ++ [a]) else q) hp
    dsimp only at hmem
    by_cases hk : (p.1 == k) = true
    · rw [if_pos hk] at hmem
      exact ⟨(p.1, p.2 ++ [a]), hmem, hpid⟩
    · rw [if_neg hk] at hmem
      exact ⟨p, hmem, hpid⟩

theorem setDoc_forall_values (coll : List (String × α)) (k : String) (v : α)
    (P : α → Prop) (h : ∀ p ∈ coll, P p.2) (hv : P v) :
    ∀ p ∈ setDoc coll k v, P p.2 := by
  intro p' hp'
  unfold setDoc at hp'
  by_cases hany : (coll.any (fun p => p.1 == k)) = true
  · rw [if_pos hany] at hp'
    rcases List.mem_map.mp hp' with ⟨p, hp, himg⟩
    by_cases hk : (p.1 == k) = true
    · rw [if_pos hk] at himg
      rw [← himg]
      exact hv
    · rw [if_neg hk] at himg
      rw [← himg]
      exact h p hp
  · rw [if_neg hany] at hp'
    rcases List.mem_append.mp hp' with hp | hp
    · exact h p' hp
    · rw [List.mem_singleton.mp hp]
      exact hv

theorem setDoc_keyExists_self (coll : List (String × α)) (k : String) (v : α) :
    ∃ p ∈ setDoc coll k v, p.1 = k :=
  ⟨(k, v), setDoc_mem coll k v, rfl⟩

theorem setDoc_keyExists_mono (coll : List (String × α)) (k : String) (v : α)
    (pid : String) (h : ∃ p ∈ coll, p.1 = pid) :
    ∃ p ∈ setDoc coll k v, p.1 = pid := by
  by_cases hpk : pid = k
  · rw [hpk]
    exact setDoc_keyExists_self coll k v
  · rcases h with ⟨p, hp, hpid⟩
    unfold setDoc
    by_cases hany : (coll.any (fun p => p.1 == k)) = true
    · rw [if_pos hany]
      have hmem := List.mem_map_of_mem
        (fun q : String × α => if q.1 == k then (k, v) else q) hp
      dsimp only at hmem
      have hk : (p.1 == k) = false := by
        rw [hpid]
        exact beq_eq_false_iff_ne.mpr hpk
      rw [if_neg (by simp [hk])] at hmem
      exact ⟨p, hmem, hpid⟩
    · rw [if_neg hany]
      exact ⟨p, List.mem_append_left _ hp, hpid⟩

theorem initAwardsMap_values (results : List Result) :
    ∀ p ∈ initAwardsMap results, p.2 = ([] : List Award) := by
  unfold initAwardsMap
  have haux : ∀ (l : List Result) (acc : List (String × List Award)),
      (∀ p ∈ acc, p.2 = ([] : List Award)) →
      ∀ p ∈ l.foldl (fun m r => setDoc m r.playerId ([] : List Award)) acc,
        p.2 = ([] : List Award) := by
    intro l
    induction l with
    | nil => exact fun acc h => h
    | cons r rest ih =>
      intro acc h
      rw [List.foldl_cons]
      exact ih _ (setDoc_forall_values acc r.playerId []
        (fun v => v = ([] : List Award)) h rfl)
  exact haux results [] (fun p hp => absurd hp (List.not_mem_nil p))

theorem initAwardsMap_keys (results : List Result) (r : Result)
    (hr : r ∈ results) : ∃ p ∈ initAwardsMap results, p.1 = r.playerId := by
  unfold initAwardsMap
  have haux : ∀ (l : List Result) (acc : List (String × List Award)),
      (r ∈ l ∨ ∃ p ∈ acc, p.1 = r.playerId) →
      ∃ p ∈ l.foldl (fun m r => setDoc m r.playerId ([] : List Award)) acc,
        p.1 = r.playerId := by
    intro l
    induction l with
    | nil =>
      intro acc h
      rcases h with h | h
      · exact absurd h (List.not_mem_nil r)
      · exact h
    | cons r2 rest ih =>
      intro acc h
      rw [List.foldl_cons]
      rcases h with h | h
      · rcases List.mem_cons.mp h with h' | h'
        · refine ih _ (Or.inr ?_)
          rw [h']
          exact setDoc_keyExists_self acc r2.playerId []
        · exact ih _ (Or.inl h')
      · exact ih _ (Or.inr (setDoc_keyExists_mono acc r2.playerId [] r.playerId h))
  exact haux results [] (Or.inl hr)

theorem initAwardsMap_no_award (results : List Result) (pid : String)
    (ty : AwardType) : ¬ awardedPlayer (initAwardsMap results) pid ty := by
  rintro ⟨p, hp, _, x, hx, _⟩
  rw [initAwardsMap_values results p hp] at hx
  exact absurd hx (List.not_mem_nil x)

theorem awardedPlayer_mapPush_mono (m : List (String × List Award))
    (k : String) (a : Award) (pid : String) (ty : AwardType)
    (h : awardedPlayer m pid ty) : awardedPlayer (mapPush m k a) pid ty := by
  rcases h with ⟨p, hp, hpid, x, hx, hty⟩
  have hmem := List.mem_map_of_mem
    (fun q : String × List Award => if q.1 == k then (q.1, q.2 ++ [a]) else q) hp
  dsimp only at hmem
  by_cases hk : (p.1 == k) = true
  · rw [if_pos hk] at hmem
    exact ⟨(p.1, p.2 ++ [a]), hmem, hpid, x, List.mem_append_left _ hx, hty⟩
  · rw [if_neg hk] at hmem
    exact ⟨p, hmem, hpid, x, hx, hty⟩

theorem awardedPlayer_mapPush_iff (m : List (String × List Award))
    (k : String) (a : Award) (ty : AwardType) (h : a.type = ty)
    (hkey : ∃ p ∈ m, p.1 = k) (pid : String) :
    awardedPlayer (mapPush m k a) pid ty ↔
      (awardedPlayer m pid ty ∨ pid = k) := by
  constructor
  · exact awardedPlayer_mapPush_elim m k a pid ty
  · rintro (hm | hpk)
    · exact awardedPlayer_mapPush_mono m k a pid ty hm
    · rw [hpk]
      exact awardedPlayer_mapPush_self m k a ty h hkey

theorem keyExists_wolf (res : List Result) (m : List (String × List Award))
    (pid : String) :
    (∃ p ∈ wolfAward res m, p.1 = pid) ↔ (∃ p ∈ m, p.1 = pid) := by
  unfold wolfAward
  split <;> simp only [keyExists_mapPush]

theorem keyExists_dolphin (res : List Result) (m : List (String × List Award))
    (pid : String) :
    (∃ p ∈ dolphinAward res m, p.1 = pid) ↔ (∃ p ∈ m, p.1 = pid) := by
  unfold dolphinAward
  split <;> simp only [keyExists_mapPush]

theorem keyExists_intern (res : List Result) (m : List (String × List Award))
    (pid : String) :
    (∃ p ∈ internAward res m, p.1 = pid) ↔ (∃ p ∈ m, p.1 = pid) := by
  unfold internAward
  split
  · rename_i last hlast
    by_cases hrank : last.rank > 2
    · rw [if_pos hrank]
      simp only [keyExists_mapPush]
    · rw [if_neg hrank]
  · exact Iff.rfl

theorem keyExists_podium (res : List Result) (m : List (String × List Award))
    (pid : String) :
    (∃ p ∈ podiumAwards res m, p.1 = pid) ↔ (∃ p ∈ m, p.1 = pid) := by
  unfold podiumAwards
  split
  · rw [keyExists_intern, keyExists_dolphin, keyExists_wolf]
  · exact Iff.rfl

theorem keyExists_rocket (ap : List FlatPosition) (m : List (String × List Award))
    (pid : String) :
    (∃ p ∈ rocketAward ap m, p.1 = pid) ↔ (∃ p ∈ m, p.1 = pid) := by
  unfold rocketAward
  split <;> simp only [keyExists_mapPush]

theorem keyExists_bagHolder (ap : List FlatPosition) (m : List (String × List Award))
    (pid : String) :
    (∃ p ∈ bagHolderAward ap m, p.1 = pid) ↔ (∃ p ∈ m, p.1 = pid) := by
  unfold bagHolderAward
  split
  · exact Iff.rfl
  · rename_i h t
    by_cases hneg : (t.foldl (fun worst pos =>
        if pos.returnPercent < worst.returnPercent then pos else worst) h).returnPercent < 0
    · rw [if_pos hneg]
      simp only [keyExists_mapPush]
    · rw [if_neg hneg]

theorem awardedPlayer_wolf_other (res : List Result)
    (m : List (String × List Award)) (pid : String) (ty : AwardType)
    (h : ty ≠ AwardType.WOLF) :
    awardedPlayer (wolfAward res m) pid ty ↔ awardedPlayer m pid ty := by
  cases ty
  case WOLF => exact absurd rfl h
  all_goals
    unfold wolfAward
    split <;> simp +decide only [awardedPlayer_mapPush_other]

theorem awardedPlayer_dolphin_other (res : List Result)
    (m : List (String × List Award)) (pid : String) (ty : AwardType)
    (h : ty ≠ AwardType.DOLPHIN) :
    awardedPlayer (dolphinAward res m) pid ty ↔ awardedPlayer m pid ty := by
  cases ty
  case DOLPHIN => exact absurd rfl h
  all_goals
    unfold dolphinAward
    split <;> simp +decide only [awardedPlayer_mapPush_other]

theorem awardedPlayer_intern_other (res : List Result)
    (m : List (String × List Award)) (pid : String) (ty : AwardType)
    (h : ty ≠ AwardType.INTERN) :
    awardedPlayer (internAward res m) pid ty ↔ awardedPlayer m pid ty := by
  cases ty
  case INTERN => exact absurd rfl h
  all_goals
    unfold internAward
    split
    · rename_i last hlast
      by_cases hrank : last.rank > 2
      · rw [if_pos hrank]
        simp +decide only [awardedPlayer_mapPush_other]
      · rw [if_neg hrank]
    · exact Iff.rfl

theorem awardedPlayer_podium_other (res : List Result)
    (m : List (String × List Award)) (pid : String) (ty : AwardType)
    (h1 : ty ≠ AwardType.WOLF) (h2 : ty ≠ AwardType.DOLPHIN)
    (h3 : ty ≠ AwardType.INTERN) :
    awardedPlayer (podiumAwards res m) pid ty ↔ awardedPlayer m pid ty := by
  unfold podiumAwards
  split
  · rw [awardedPlayer_intern_other res _ pid ty h3,
      awardedPlayer_dolphin_other res _ pid ty h2,
      awardedPlayer_wolf_other res m pid ty h1]
  · exact Iff.rfl

theorem awardedPlayer_dolphin_iff (res : List Result)
    (m : List (String × List Award)) (pid : String)
    (hkeys : ∀ r ∈ res, ∃ p ∈ m, p.1 = r.playerId) :
    awardedPlayer (dolphinAward res m) pid AwardType.DOLPHIN ↔
      (awardedPlayer m pid AwardType.DOLPHIN ∨
        ∃ second, res.find? (fun r => r.rank == 2) = some second ∧
          pid = second.playerId) := by
  unfold dolphinAward
  cases hf2 : res.find? (fun r => r.rank == 2) with
  | none =>
    dsimp only
    simp
  | some second =>
    dsimp only
    have hkey : ∃ p ∈ m, p.1 = second.playerId :=
      hkeys second (List.mem_of_find?_eq_some hf2)
    rw [awardedPlayer_mapPush_iff m second.playerId _ AwardType.DOLPHIN rfl hkey pid]
    simp

theorem awardedPlayer_intern_iff (res : List Result)
    (m : List (String × List Award)) (pid : String)
    (hkeys : ∀ r ∈ res, ∃ p ∈ m, p.1 = r.playerId) :
    awardedPlayer (internAward res m) pid AwardType.INTERN ↔
      (awardedPlayer m pid AwardType.INTERN ∨
        ∃ last, res.find? (fun r => r.rank == res.length) = some last ∧
          last.rank > 2 ∧ pid = last.playerId) := by
  unfold internAward
  cases hf3 : res.find? (fun r => r.rank == res.length) with
  | none =>
    dsimp only
    simp
  | some last =>
    dsimp only
    by_cases hrank : last.rank > 2
    · rw [if_pos hrank]
      have hkey : ∃ p ∈ m, p.1 = last.playerId :=
        hkeys last (List.mem_of_find?_eq_some hf3)
      rw [awardedPlayer_mapPush_iff m last.playerId _ AwardType.INTERN rfl hkey pid]
      simp [hrank]
    · rw [if_neg hrank]
      simp only [Option.some.injEq]
      constructor
      · exact fun h => Or.inl h
      · rintro (h | ⟨last2, hl2, hr2, _⟩)
        · exact h
        · rw [← hl2] at hr2
          exact absurd hr2 hrank

theorem awardedPlayer_oracle_iff (res : List Result)
    (m : List (String × List Award)) (pid : String)
    (hkeys : ∀ r ∈ res, ∃ p ∈ m, p.1 = r.playerId) :
    awardedPlayer (oracleAward res m) pid AwardType.ORACLE ↔
      (awardedPlayer m pid AwardType.ORACLE ∨
        ∃ r, res.find? allGreen = some r ∧ pid = r.playerId) := by
  unfold oracleAward
  cases hf : res.find? allGreen with
  | none =>
    dsimp only
    simp
  | some r =>
    dsimp only
    have hkey : ∃ p ∈ m, p.1 = r.playerId :=
      hkeys r (List.mem_of_find?_eq_some hf)
    rw [awardedPlayer_mapPush_iff m r.playerId _ AwardType.ORACLE rfl hkey pid]
    simp

theorem awardedPlayer_rocket_other (ap : List FlatPosition)
    (m : List (String × List Award)) (pid : String) (ty : AwardType)
    (h : ty ≠ AwardType.ROCKET) :
    awardedPlayer (rocketAward ap m) pid ty ↔ awardedPlayer m pid ty := by
  cases ty
  case ROCKET => exact absurd rfl h
  all_goals
    unfold rocketAward
    split <;> simp +decide only [awardedPlayer_mapPush_other]

theorem awardedPlayer_bagHolder_other (ap : List FlatPosition)
    (m : List (String × List Award)) (pid : String) (ty : AwardType)
    (h : ty ≠ AwardType.BAG_HOLDER) :
    awardedPlayer (bagHolderAward ap m) pid ty ↔ awardedPlayer m pid ty := by
  cases ty
  case BAG_HOLDER => exact absurd rfl h
  all_goals
    unfold bagHolderAward
    split
    · exact Iff.rfl
    · rename_i hh tt
      by_cases hneg : (tt.foldl (fun worst pos =>
          if pos.returnPercent < worst.returnPercent then pos else worst) hh).returnPercent < 0
      · rw [if_pos hneg]
        simp +decide only [awardedPlayer_mapPush_other]
      · rw [if_neg hneg]

theorem awardedPlayer_oracle_other (res : List Result)
    (m : List (String × List Award)) (pid : String) (ty : AwardType)
    (h : ty ≠ AwardType.ORACLE) :
    awardedPlayer (oracleAward res m) pid ty ↔ awardedPlayer m pid ty := by
  cases ty
  case ORACLE => exact absurd rfl h
  all_goals
    unfold oracleAward
    split <;> simp +decide only [awardedPlayer_mapPush_other]

theorem awardedPlayer_gambler_other (ap : List FlatPosition)
    (m : List (String × List Award)) (pid : String) (ty : AwardType)
    (h : ty ≠ AwardType.GAMBLER) :
    awardedPlayer (gamblerAward ap m) pid ty ↔ awardedPlayer m pid ty := by
  cases ty
  case GAMBLER => exact absurd rfl h
  all_goals
    unfold gamblerAward
    dsimp only
    split <;> simp +decide only [awardedPlayer_mapPush_other]

theorem awardedPlayer_calculateAwards_dolphin (res : List Result) (pid : String) :
    awardedPlayer (calculateAwards res) pid AwardType.DOLPHIN ↔
      ∃ second, res.find? (fun r => r.rank == 2) = some second ∧
        pid = second.playerId := by
  unfold calculateAwards
  dsimp only
  rw [awardedPlayer_gambler_other _ _ _ _ (by decide),
    awardedPlayer_oracle_other _ _ _ _ (by decide),
    awardedPlayer_bagHolder_other _ _ _ _ (by decide),
    awardedPlayer_rocket_other _ _ _ _ (by decide)]
  unfold podiumAwards
  split
  · rw [awardedPlayer_intern_other _ _ _ _ (by decide),
      awardedPlayer_dolphin_iff res _ pid (fun r hr =>
        (keyExists_wolf res _ r.playerId).mpr (initAwardsMap_keys res r hr)),
      awardedPlayer_wolf_other _ _ _ _ (by decide)]
    simp only [or_iff_right_iff_imp]
    intro h
    exact absurd h (initAwardsMap_no_award res pid AwardType.DOLPHIN)
  · rename_i hlen
    have hres : res = [] := List.eq_nil_of_length_eq_zero (by omega)
    subst hres
    simp only [List.find?_nil]
    constructor
    · intro h
      exact absurd h (initAwardsMap_no_award [] pid AwardType.DOLPHIN)
    · rintro ⟨second, hsec, _⟩
      exact absurd hsec (by simp)

theorem awardedPlayer_calculateAwards_intern (res : List Result) (pid : String) :
    awardedPlayer (calculateAwards res) pid AwardType.INTERN ↔
      ∃ last, res.find? (fun r => r.rank == res.length) = some last ∧
        last.rank > 2 ∧ pid = last.playerId := by
  unfold calculateAwards
  dsimp only
  rw [awardedPlayer_gambler_other _ _ _ _ (by decide),
    awardedPlayer_oracle_other _ _ _ _ (by decide),
    awardedPlayer_bagHolder_other _ _ _ _ (by decide),
    awardedPlayer_rocket_other _ _ _ _ (by decide)]
  unfold podiumAwards
  split
  · rw [awardedPlayer_intern_iff res _ pid (fun r hr =>
      (keyExists_dolphin res _ r.playerId).mpr
        ((keyExists_wolf res _ r.playerId).mpr (initAwardsMap_keys res r hr))),
      awardedPlayer_dolphin_other _ _ _ _ (by decide),
      awardedPlayer_wolf_other _ _ _ _ (by decide)]
    simp only [or_iff_right_iff_imp]
    intro h
    exact absurd h (initAwardsMap_no_award res pid AwardType.INTERN)
  · rename_i hlen
    have hres : res = [] := List.eq_nil_of_length_eq_zero (by omega)
    subst hres
    simp only [List.find?_nil]
    constructor
    · intro h
      exact absurd h (initAwardsMap_no_award [] pid AwardType.INTERN)
    · rintro ⟨last, hlast, _⟩
      exact absurd hlast (by simp)

theorem awardedPlayer_calculateAwards_oracle (res : List Result) (pid : String) :
    awardedPlayer (calculateAwards res) pid AwardType.ORACLE ↔
      ∃ r, res.find? allGreen = some r ∧ pid = r.playerId := by
  unfold calculateAwards
  dsimp only
  rw [awardedPlayer_gambler_other _ _ _ _ (by decide),
    awardedPlayer_oracle_iff res _ pid (fun r hr =>
      (keyExists_bagHolder _ _ r.playerId).mpr
        ((keyExists_rocket _ _ r.playerId).mpr
          ((keyExists_podium res _ r.playerId).mpr (initAwardsMap_keys res r hr)))),
    awardedPlayer_bagHolder_other _ _ _ _ (by decide),
    awardedPlayer_rocket_other _ _ _ _ (by decide),
    awardedPlayer_podium_other _ _ _ _ (by decide) (by decide) (by decide)]
  simp only [or_iff_right_iff_imp]
  intro h
  exact absurd h (initAwardsMap_no_award res pid AwardType.ORACLE)

theorem rankResults_exists_rank (l : List Result) (k : Nat) (hk : 1 ≤ k) :
    (∃ r ∈ rankResults l, r.rank = k) ↔ k ≤ l.length := by
  constructor
  · rintro ⟨r, hr, hrank⟩
    have hmem : r.rank ∈ (rankResults l).map (fun r => r.rank) :=
      List.mem_map_of_mem _ hr
    rw [rankResults_map_rank, hrank] at hmem
    rcases List.mem_range'.mp hmem with ⟨i, hi, hki⟩
    omega
  · intro hkn
    have hmem : k ∈ List.range' 1 l.length := by
      rw [List.mem_range']
      exact ⟨k - 1, by omega, by omega⟩
    rw [← rankResults_map_rank] at hmem
    rcases List.mem_map.mp hmem with ⟨r, hr, hrank⟩
    exact ⟨r, hr, hrank⟩

/-! Claim theorems. -/

/-- C1 counterexample: `draftWorld` holds a game whose status is `DRAFT`
(hence not `LIVE`) with no persisted Results, yet `settleGame` is not a
no-op on it — it proceeds to settlement and flips the game to `ENDED`. -/
theorem C1_counterexample_draft_game_is_settled :
    (lookupDoc draftWorld.games "WS-0001").map Game.status = some GameStatus.DRAFT ∧
    settleGame envZero draftWorld "WS-0001" ≠ some draftWorld ∧
    (settleGame envZero draftWorld "WS-0001").map
      (fun w => (lookupDoc w.games "WS-0001").map Game.status) =
      some (some GameStatus.ENDED) := by
  refine ⟨by with_unfolding_all decide, by with_unfolding_all decide,
    by with_unfolding_all decide⟩

/-- C1 (amended): `settleGame` is a successful no-op (no writes) exactly
on the already-handled games — those whose status is `ENDED` or that
already have a persisted Result; a `DRAFT` game proceeds to settlement.
The `forceSettleGame` entry point, however, rejects every non-`LIVE` game
of the authenticated creator with a `failed-precondition` error. -/
theorem C1_amended_noop_only_for_ended_or_settled :
    (∀ (env : Env) (w : World) (g : String) (game : Game),
      lookupDoc w.games g = some game →
      (game.status = GameStatus.ENDED ∨ resultsForGame w.results g ≠ []) →
      settleGame env w g = some w) ∧
    (∀ (env : Env) (w : World) (g uid : String) (game : Game),
      lookupDoc w.games g = some game → game.creatorId = uid →
      game.status ≠ GameStatus.LIVE →
      forceSettleGame env w (some uid) g =
        Except.error HttpsErr.failedPrecondition) := by
  constructor
  · exact fun env w g game hg h => settleGame_noop env w g game hg h
  · intro env w g uid game hg hcr hst
    unfold forceSettleGame
    rw [hg]
    dsimp only
    rw [if_neg (not_not_intro hcr)]
    rw [if_pos hst]

/-- C3: settlement is idempotent — after a successful `settleGame` run,
a second sequential invocation is a pure no-op: it performs no writes and
returns the store unchanged (every persisted Result, LeaderboardEntry,
user, audit entry and the game document stay exactly as they were). -/
theorem C3_settlement_idempotent :
    ∀ (env env2 : Env) (w w' : World) (g : String),
      settleGame env w g = some w' → settleGame env2 w' g = some w' := by
  intro env env2 w w' g h
  simp only [settleGame] at h
  by_cases hres : (resultsForGame w.results g).isEmpty = false
  · rw [if_pos hres] at h
    have hw := Option.some.inj h
    rw [← hw]
    exact settleGame_noop_results env2 w g hres
  · rw [if_neg hres] at h
    cases hg : lookupDoc w.games g with
    | none =>
      rw [hg] at h
      exact absurd h (by simp)
    | some game =>
      rw [hg] at h
      simp only [Option.bind_eq_bind, Option.some_bind] at h
      by_cases hst : game.status = GameStatus.ENDED
      · rw [if_pos hst] at h
        have hw := Option.some.inj h
        rw [← hw]
        exact settleGame_noop env2 w g game hg (Or.inl hst)
      · rw [if_neg hst] at h
        rcases Option.bind_eq_some.mp h with ⟨results2, haw, h2⟩
        rcases Option.bind_eq_some.mp h2 with ⟨persisted, hper, h3⟩
        rcases Option.bind_eq_some.mp h3 with ⟨w2, hupd, h4⟩
        have hw' : w' = createAuditLog w2 env.now "GAME_SETTLED" "system" "GAME" g
            results2.length
            ((results2.find? (fun r => r.rank == 1)).map (fun r => r.nickname)) :=
          (Option.some.inj h4).symm
        rcases updateUserStats_preserves results2 _ w2 hupd with ⟨hw2games, hw2results, _, _⟩
        have hwgames : w'.games = updateDoc w.games g
            (fun g0 => { g0 with status := GameStatus.ENDED, endedAt := some env.now }) := by
          rw [hw']
          exact hw2games
        have hwresults : w'.results = persisted.1 := by
          rw [hw']
          exact hw2results
        have hg' : lookupDoc w'.games g =
            some { game with status := GameStatus.ENDED, endedAt := some env.now } := by
          rw [hwgames, lookupDoc_updateDoc, hg]
          rfl
        cases hpl : playersForGame w.players g with
        | nil =>
          exact settleGame_noop env2 w' g
            { game with status := GameStatus.ENDED, endedAt := some env.now } hg'
            (Or.inl rfl)
        | cons p ps =>
          have hmapall : ∀ (fp : List (String × Rat)) (n : Nat) (pls : List Player),
              ∀ x ∈ List.map (computePlayerResult env.now g fp n) pls,
                x.gameCode = g := by
            intro fp n pls x hx
            rcases List.mem_map.mp hx with ⟨pl, _, hplx⟩
            rw [← hplx]
            rfl
          have hrankall : ∀ (fp : List (String × Rat)) (n : Nat) (pls : List Player),
              ∀ y ∈ rankResults (List.map (computePlayerResult env.now g fp n) pls),
                y.gameCode = g :=
            fun fp n pls => rankResults_gameCode _ g (hmapall fp n pls)
          have hrankne : ∀ (fp : List (String × Rat)) (n : Nat),
              rankResults (List.map (computePlayerResult env.now g fp n)
                (playersForGame w.players g)) ≠ [] := by
            intro fp n hcontra
            have hlen := congrArg List.length hcontra
            rw [rankResults_length, List.length_map, hpl] at hlen
            simp at hlen
          rcases assignAwards_shape _ _ _ _ haw with ⟨hne, hall2⟩
          have hres2ne := hne (hrankne _ _)
          have hres2all := hall2 g (hrankall _ _ _)
          rcases persistResults_nonempty g results2 _ persisted hper hres2all hres2ne with
            ⟨pentry, hpmem, hpg⟩
          have hne' : resultsForGame w'.results g ≠ [] := by
            rw [hwresults]
            exact resultsForGame_ne_nil _ g pentry hpmem hpg
          have hempty : (resultsForGame w'.results g).isEmpty = false := by
            cases hcase : (resultsForGame w'.results g).isEmpty with
            | false => rfl
            | true => exact absurd (List.isEmpty_iff.mp hcase) hne'
          exact settleGame_noop_results env2 w' g hempty

/-- C5: the return calculator — a position's `returnPercent` is 0 when
`initialPrice = 0` and `(finalPrice - initialPrice)/initialPrice * 100`
otherwise; `valueAtEnd` is `quantity * finalPrice`; the persisted
position results round the return to 4 decimals and the monetary value
to 2; and the portfolio return is computed from the UNROUNDED sum of the
position end values as `(sum - totalBudget)/totalBudget * 100`, rounded
to 4 decimals only at persistence. -/
theorem C5_return_calculator_formulas :
    (∀ startPrice endPrice : Rat,
      calculateReturn startPrice endPrice =
        if startPrice = 0 then 0 else (endPrice - startPrice) / startPrice * 100) ∧
    (∀ quantity price : Rat,
      calculatePositionValue quantity price = quantity * price) ∧
    (∀ (now : Nat) (g : String) (fp : List (String × Rat)) (tp : Nat)
      (player : Player),
      (computePlayerResult now g fp tp player).positionResults =
        player.portfolio.map (positionResultOf fp)) ∧
    (∀ (fp : List (String × Rat)) (position : PortfolioItem),
      (positionResultOf fp position).returnPercent =
        roundTo (calculateReturn position.initialPrice
          (resolveFinalPrice fp position.ticker position.initialPrice)) 4 ∧
      (positionResultOf fp position).valueAtEnd =
        roundTo (calculatePositionValue position.quantity
          (resolveFinalPrice fp position.ticker position.initialPrice)) 2) ∧
    (∀ (now : Nat) (g : String) (fp : List (String × Rat)) (tp : Nat)
      (player : Player), player.totalBudget = TOTAL_BUDGET →
      (computePlayerResult now g fp tp player).portfolioReturnPercent =
        roundTo (((player.portfolio.map (rawPositionValue fp)).sum -
          player.totalBudget) / player.totalBudget * 100) 4) := by
  refine ⟨fun s e => rfl, fun q p => rfl,
    computePlayerResult_positionResults, fun fp position => ⟨rfl, rfl⟩, ?_⟩
  intro now g fp tp player hb
  rw [computePlayerResult_return now g fp tp player, hb]
  unfold calculateReturn TOTAL_BUDGET
  rw [if_neg (by norm_num)]

set_option maxRecDepth 2000 in
/-- Witness for C5 at the concrete `exPlayer` (100 shares of AAPL at
initial price 100, final price 110): the persisted portfolio return is
the rounded claim formula, and evaluates to exactly 10 percent. -/
theorem C5_return_calculator_formulas_witness :
    (computePlayerResult 5 "G" exPrices 1 exPlayer).portfolioReturnPercent =
      roundTo (((exPlayer.portfolio.map (rawPositionValue exPrices)).sum -
        exPlayer.totalBudget) / exPlayer.totalBudget * 100) 4 ∧
    (computePlayerResult 5 "G" exPrices 1 exPlayer).portfolioReturnPercent = 10 := by
  refine ⟨C5_return_calculator_formulas.2.2.2.2 5 "G" exPrices 1 exPlayer rfl, ?_⟩
  with_unfolding_all decide

/-- C6: podium award guards. On a ranked result list, the second-place
award (DOLPHIN) is granted exactly when some result has rank 2, i.e.
exactly when there are at least 2 participants; the last-place award
(INTERN) is granted exactly when the last participant's rank exceeds 2,
i.e. exactly when there are at least 3 participants, and only ever to
the last-ranked participant. In particular with 1 or 2 participants no
INTERN is granted and with 1 participant no DOLPHIN is granted. -/
theorem C6_podium_award_guards : ∀ l : List Result,
    ((∃ pid, awardedPlayer (calculateAwards (rankResults l)) pid AwardType.DOLPHIN) ↔
      2 ≤ l.length) ∧
    ((∃ pid, awardedPlayer (calculateAwards (rankResults l)) pid AwardType.INTERN) ↔
      3 ≤ l.length) ∧
    (∀ pid, awardedPlayer (calculateAwards (rankResults l)) pid AwardType.INTERN →
      ∃ last ∈ rankResults l, last.rank = (rankResults l).length ∧ 2 < last.rank ∧
        pid = last.playerId) := by
  intro l
  refine ⟨⟨?_, ?_⟩, ⟨?_, ?_⟩, ?_⟩
  · rintro ⟨pid, h⟩
    rcases (awardedPlayer_calculateAwards_dolphin _ pid).mp h with ⟨second, hs, _⟩
    have hmem := List.mem_of_find?_eq_some hs
    have hpred : second.rank = 2 := by simpa using List.find?_some hs
    exact (rankResults_exists_rank l 2 (by omega)).mp ⟨second, hmem, hpred⟩
  · intro hlen
    rcases (rankResults_exists_rank l 2 (by omega)).mpr hlen with ⟨r, hr, hrank⟩
    have hsome : (((rankResults l).find? (fun r => r.rank == 2)).isSome : Prop) :=
      List.find?_isSome.mpr ⟨r, hr, by simp [hrank]⟩
    rcases Option.isSome_iff_exists.mp hsome with ⟨second, hs⟩
    exact ⟨second.playerId,
      (awardedPlayer_calculateAwards_dolphin _ _).mpr ⟨second, hs, rfl⟩⟩
  · rintro ⟨pid, h⟩
    rcases (awardedPlayer_calculateAwards_intern _ pid).mp h with ⟨last, hs, hrank, _⟩
    have hpred : last.rank = (rankResults l).length := by
      simpa using List.find?_some hs
    rw [rankResults_length] at hpred
    omega
  · intro hlen
    rcases (rankResults_exists_rank l l.length (by omega)).mpr (by omega) with
      ⟨r, hr, hrank⟩
    have hsome : (((rankResults l).find?
        (fun r => r.rank == (rankResults l).length)).isSome : Prop) :=
      List.find?_isSome.mpr ⟨r, hr, by simp [hrank, rankResults_length]⟩
    rcases Option.isSome_iff_exists.mp hsome with ⟨last, hs⟩
    have hpred : last.rank = (rankResults l).length := by
      simpa using List.find?_some hs
    refine ⟨last.playerId, (awardedPlayer_calculateAwards_intern _ _).mpr
      ⟨last, hs, ?_, rfl⟩⟩
    rw [hpred, rankResults_length]
    omega
  · intro pid h
    rcases (awardedPlayer_calculateAwards_intern _ pid).mp h with ⟨last, hs, hrank, hpid⟩
    have hpred : last.rank = (rankResults l).length := by
      simpa using List.find?_some hs
    exact ⟨last, List.mem_of_find?_eq_some hs, hpred, hrank, hpid⟩

/-- Witness for C6 at concrete inputs: with the two tied players of
`exResultA`/`exResultB` a DOLPHIN is granted, and no INTERN is granted
(only 2 participants). -/
theorem C6_podium_award_guards_witness :
    (∃ pid, awardedPlayer (calculateAwards (rankResults [exResultB, exResultA]))
      pid AwardType.DOLPHIN) ∧
    ¬ (∃ pid, awardedPlayer (calculateAwards (rankResults [exResultB, exResultA]))
      pid AwardType.INTERN) :=
  ⟨(C6_podium_award_guards [exResultB, exResultA]).1.mpr (by decide),
    fun hc => by
      have h3 := (C6_podium_award_guards [exResultB, exResultA]).2.1.mp hc
      simp at h3⟩

/-- C7: the ORACLE (all-positions-positive) award. A player holds ORACLE
exactly when they are the result returned by `find?` over the ranked
list — the first, in ranked order, whose every position has strictly
positive return; hence at most one player per game holds it, nobody
holds it when nobody qualifies, and the holder's rank is minimal among
all qualifying players. -/
theorem C7_oracle_unique_first : ∀ l : List Result,
    (∀ pid, awardedPlayer (calculateAwards (rankResults l)) pid AwardType.ORACLE ↔
      ∃ r, (rankResults l).find? allGreen = some r ∧ pid = r.playerId) ∧
    (∀ pid1 pid2,
      awardedPlayer (calculateAwards (rankResults l)) pid1 AwardType.ORACLE →
      awardedPlayer (calculateAwards (rankResults l)) pid2 AwardType.ORACLE →
      pid1 = pid2) ∧
    ((∀ r ∈ rankResults l, allGreen r = false) →
      ∀ pid, ¬ awardedPlayer (calculateAwards (rankResults l)) pid AwardType.ORACLE) ∧
    (∀ r, (rankResults l).find? allGreen = some r →
      allGreen r = true ∧ r ∈ rankResults l ∧
        ∀ r2 ∈ rankResults l, allGreen r2 = true → r.rank ≤ r2.rank) := by
  intro l
  refine ⟨fun pid => awardedPlayer_calculateAwards_oracle _ pid, ?_, ?_, ?_⟩
  · intro pid1 pid2 h1 h2
    rcases (awardedPlayer_calculateAwards_oracle _ pid1).mp h1 with ⟨r1, hs1, e1⟩
    rcases (awardedPlayer_calculateAwards_oracle _ pid2).mp h2 with ⟨r2, hs2, e2⟩
    rw [e1, e2, Option.some.inj (hs1.symm.trans hs2)]
  · intro hall pid hcontra
    rcases (awardedPlayer_calculateAwards_oracle _ pid).mp hcontra with ⟨r, hs, _⟩
    have hnone : (rankResults l).find? allGreen = none :=
      List.find?_eq_none.mpr (fun x hx => by rw [hall x hx]; exact Bool.false_ne_true)
    rw [hnone] at hs
    exact absurd hs (by simp)
  · intro r hs
    have hgr := List.find?_some hs
    refine ⟨hgr, List.mem_of_find?_eq_some hs, ?_⟩
    intro r2 hr2 hgr2
    rcases List.find?_eq_some_iff_getElem.mp hs with ⟨_, i, hi, hieq, hbefore⟩
    rcases List.getElem_of_mem hr2 with ⟨j, hj, hjeq⟩
    have hij : i ≤ j := by
      by_contra hji
      have hx := hbefore j (by omega)
      rw [hjeq, hgr2] at hx
      simp at hx
    have hi' := stableSort_length_eq_rank l i hi
    have hj' := stableSort_length_eq_rank l j hj
    have hri : r.rank = i + 1 := by
      rw [← hieq, rankResults_getElem l i hi hi', rank_update_rank]
    have hrj : r2.rank = j + 1 := by
      rw [← hjeq, rankResults_getElem l j hj hj', rank_update_rank]
    omega

set_option maxRecDepth 2000 in
/-- Witness for C7: with the single player `exResultA` (whose empty
position list is vacuously all-green), that player — first and only in
ranked order — receives the ORACLE award. -/
theorem C7_oracle_unique_first_witness :
    awardedPlayer (calculateAwards (rankResults [exResultA])) "p1" AwardType.ORACLE :=
  ((C7_oracle_unique_first [exResultA]).1 "p1").mpr
    ⟨setRank exResultA 1, by
      have hev : rankResults [exResultA] = [setRank exResultA 1] := by
        simp +decide [rankResults, stableSort, insertSorted, List.enum,
          List.enumFrom, setRank, exResultA]
      rw [hev]
      exact List.find?_cons_of_pos _ (by decide), rfl⟩

set_option maxRecDepth 2000 in
/-- C4 counterexample: the final-price map is not total and no
data-quality flag is ever set. For the ticker `"ZZZZ"` — absent from the
snapshot store and from the static stock table — `fetchFinalPrices`
returns no price at all (the claim requires one for every input ticker).
Moreover, settling a game whose `AAPL` price is synthesized (no snapshot
exists, so the price 170 is fabricated from the random draws) leaves the
game's `dataQualityFlag` at `OK` instead of marking it degraded. -/
theorem C4_counterexample_resolver_not_total_no_flag :
    lookupDoc (fetchFinalPrices envZero [] ["ZZZZ"]) "ZZZZ" = none ∧
    lookupDoc (fetchFinalPrices envZero [] ["AAPL"]) "AAPL" = some 170 ∧
    (settleGame envZero liveWorldAAPL "WS-0004").map
      (fun w => (lookupDoc w.games "WS-0004").map Game.dataQualityFlag) =
      some (some DataQualityFlag.OK) := by
  refine ⟨by with_unfolding_all decide, by with_unfolding_all decide,
    by with_unfolding_all decide⟩

/-- C4 (amended): the final-price resolver returns a price exactly for
those input tickers that have a persisted snapshot for today's date or
appear in the static stock table (for the latter it synthesizes a
fallback price); tickers unknown to both stay absent from the map, and
no settlement run ever modifies any game's data-quality flag. Price
unavailability still never fails settlement — `settleGame` substitutes
the position's `initialPrice` for a missing price (see C10). -/
theorem C4_amended_resolver_domain_and_no_flag :
    (∀ (env : Env) (snaps : List (String × PriceSnapshot))
      (tickers : List String) (t : String), t ∈ tickers →
      ((lookupDoc (fetchFinalPrices env snaps tickers) t).isSome = true ↔
        ((lookupDoc snaps (env.today ++ "_" ++ t)).isSome = true ∨
          (findStockByTicker t).isSome = true))) ∧
    (∀ (env : Env) (w : World) (g : String) (w' : World),
      settleGame env w g = some w' →
      w'.games.map (fun p => (p.1, p.2.dataQualityFlag)) =
        w.games.map (fun p => (p.1, p.2.dataQualityFlag))) := by
  constructor
  · intro env snaps tickers t hmem
    unfold fetchFinalPrices
    rw [fetchFold_lookup env snaps tickers ([], 0) t]
    constructor
    · rintro (hl | ⟨_, hc⟩)
      · exact absurd hl (by simp [lookupDoc])
      · exact hc
    · intro hc
      exact Or.inr ⟨hmem, hc⟩
  · intro env w g w' h
    rcases settleGame_games_eq env w g w' h with hgames | hgames
    · rw [hgames]
    · rw [hgames]
      exact map_updateDoc_proj w.games g _ Game.dataQualityFlag (fun x => rfl)

set_option maxRecDepth 2000 in
/-- Witness for the amended C4 at concrete inputs: `"AAPL"` (in the stock
table, no snapshot) gets a price, and the zero-player settlement of
`liveWorldAAPL` leaves its flag map unchanged. -/
theorem C4_amended_witness :
    (lookupDoc (fetchFinalPrices envZero [] ["AAPL"]) "AAPL").isSome = true ∧
    liveWorldSettled.games.map (fun p => (p.1, p.2.dataQualityFlag)) =
      liveWorld.games.map (fun p => (p.1, p.2.dataQualityFlag)) :=
  ⟨(C4_amended_resolver_domain_and_no_flag.1 envZero [] ["AAPL"] "AAPL"
      (by decide)).mpr (Or.inr (by with_unfolding_all decide)),
    C4_amended_resolver_domain_and_no_flag.2 envZero liveWorld "WS-0003"
      liveWorldSettled (by with_unfolding_all decide)⟩

set_option maxRecDepth 2000 in
/-- Witness for C3: settling the zero-player `LIVE` game of `liveWorld`
yields `liveWorldSettled`, and a second `settleGame` on it changes
nothing. -/
theorem C3_settlement_idempotent_witness :
    settleGame envZero liveWorld "WS-0003" = some liveWorldSettled ∧
    settleGame envZero liveWorldSettled "WS-0003" = some liveWorldSettled :=
  ⟨by with_unfolding_all decide,
    C3_settlement_idempotent envZero envZero liveWorld liveWorldSettled "WS-0003"
      (by with_unfolding_all decide)⟩

/-- Witness for the amended C1: the `ENDED` game of `endedWorld` is left
untouched by `settleGame`, and `forceSettleGame` on the `DRAFT` game of
`draftWorld` fails with a precondition error. -/
theorem C1_amended_witness :
    settleGame envZero endedWorld "WS-0002" = some endedWorld ∧
    forceSettleGame envZero draftWorld (some "alice") "WS-0001" =
      Except.error HttpsErr.failedPrecondition :=
  ⟨C1_amended_noop_only_for_ended_or_settled.1 envZero endedWorld "WS-0002" endedGame
      (by with_unfolding_all decide) (Or.inl rfl),
    C1_amended_noop_only_for_ended_or_settled.2 envZero draftWorld "WS-0001" "alice"
      draftGame (by with_unfolding_all decide) rfl (by decide)⟩

/-- C2: `rankResults` orders the results by `portfolioReturnPercent`
descending with ties broken by earlier `submittedAt`, assigns as ranks
exactly the permutation `1..N` (no gaps, no duplicates), keeps the same
multiset of results (up to the assigned rank), and of two results with
equal return the one with the strictly earlier `submittedAt` gets the
strictly smaller rank. -/
theorem C2_rank_permutation_and_tiebreak : ∀ l : List Result,
    ((rankResults l).map (fun r => r.rank) = List.range' 1 l.length) ∧
    ((rankResults l).Pairwise (fun a b =>
      b.portfolioReturnPercent < a.portfolioReturnPercent ∨
        (a.portfolioReturnPercent = b.portfolioReturnPercent ∧
          a.submittedAt ≤ b.submittedAt))) ∧
    (List.Perm ((rankResults l).map (fun r => setRank r 0))
      (l.map (fun r => setRank r 0))) ∧
    (∀ a ∈ rankResults l, ∀ b ∈ rankResults l,
      a.portfolioReturnPercent = b.portfolioReturnPercent →
      a.submittedAt < b.submittedAt → a.rank < b.rank) :=
  fun l => ⟨rankResults_map_rank l, rankResults_pairwise l,
    rankResults_perm_eraseRank l, fun a ha b hb => rankResults_tiebreak l a b ha hb⟩

/-- Witness for C2 at a concrete two-element tie: the earlier submission
(`exResultA`, t=10) outranks the tied later one (`exResultB`, t=20). -/
theorem C2_rank_permutation_and_tiebreak_witness :
    (setRank exResultA 1).rank < (setRank exResultB 2).rank := by
  have hev : rankResults [exResultB, exResultA] =
      [setRank exResultA 1, setRank exResultB 2] := by
    simp +decide [rankResults, stableSort, insertSorted, resultLE, compareResults,
      exResultA, exResultB, setRank, List.enum, List.enumFrom]
  refine (C2_rank_permutation_and_tiebreak [exResultB, exResultA]).2.2.2
    (setRank exResultA 1) ?_ (setRank exResultB 2) ?_ ?_ ?_
  · rw [hev]
    exact List.mem_cons_self _ _
  · rw [hev]
    exact List.mem_cons_of_mem _ (List.mem_cons_self _ _)
  · rfl
  · decide

/-! C8: the what-if message. -/

theorem bestPositionOf_cons (p a : PositionResult) (t : List PositionResult) :
    bestPositionOf p (a :: t) =
      bestPositionOf (if a.returnPercent > p.returnPercent then a else p) t := rfl

theorem bestPositionOf_mem (t : List PositionResult) :
    ∀ p, bestPositionOf p t ∈ p :: t := by
  induction t with
  | nil =>
    intro p
    exact List.mem_singleton.mpr rfl
  | cons a t ih =>
    intro p
    rw [bestPositionOf_cons]
    rcases List.mem_cons.mp (ih (if a.returnPercent > p.returnPercent then a else p))
      with h | h
    · rw [h]
      by_cases hc : a.returnPercent > p.returnPercent
      · rw [if_pos hc]
        exact List.mem_cons_of_mem _ (List.mem_cons_self _ _)
      · rw [if_neg hc]
        exact List.mem_cons_self _ _
    · exact List.mem_cons_of_mem _ (List.mem_cons_of_mem _ h)

theorem bestPositionOf_le (t : List PositionResult) :
    ∀ p, ∀ q ∈ p :: t, q.returnPercent ≤ (bestPositionOf p t).returnPercent := by
  induction t with
  | nil =>
    intro p q hq
    rw [List.mem_singleton.mp hq, show bestPositionOf p [] = p from rfl]
  | cons a t ih =>
    intro p q hq
    rw [bestPositionOf_cons]
    rcases List.mem_cons.mp hq with h | h
    · refine le_trans ?_ (ih _ _ (List.mem_cons_self _ _))
      by_cases hc : a.returnPercent > p.returnPercent
      · rw [h, if_pos hc]
        exact le_of_lt hc
      · rw [h, if_neg hc]
    · rcases List.mem_cons.mp h with h2 | h2
      · refine le_trans ?_ (ih _ _ (List.mem_cons_self _ _))
        by_cases hc : a.returnPercent > p.returnPercent
        · rw [h2, if_pos hc]
        · rw [h2, if_neg hc]
          exact le_of_not_lt hc
      · exact ih _ _ (List.mem_cons_of_mem _ h2)

theorem ite_ge_emit (k r : Nat) (msg : Msg) :
    (∃ m, (if k ≥ r then (some none : Option (Option Msg))
        else some (some msg)) = some (some m)) ↔ k < r := by
  by_cases hge : k ≥ r
  · rw [if_pos hge]
    constructor
    · rintro ⟨m, hm⟩
      exact absurd hm (by simp)
    · intro hlt
      omega
  · rw [if_neg hge]
    constructor
    · intro _
      omega
    · intro _
      exact ⟨msg, rfl⟩

/-- C8: `generateWhatIfMessage` emits no message for a rank-1 result; for
a result of any other rank with a non-empty position list, the best
position is picked by the fold (it belongs to the list and maximises
`returnPercent`), and a message is emitted exactly when the hypothetical
rank — one plus the number of results of other players whose actual
`portfolioReturnPercent` strictly exceeds that best position's
`returnPercent` — is strictly smaller than the player's actual rank. -/
theorem C8_what_if_message :
    (∀ (result : Result) (allResults : List Result),
      result.rank = 1 → generateWhatIfMessage result allResults = some none) ∧
    (∀ (result : Result) (allResults : List Result) (p : PositionResult)
        (t : List PositionResult),
      result.rank ≠ 1 → result.positionResults = p :: t →
      (bestPositionOf p t ∈ p :: t ∧
        ∀ q ∈ p :: t, q.returnPercent ≤ (bestPositionOf p t).returnPercent) ∧
      ((∃ m, generateWhatIfMessage result allResults = some (some m)) ↔
        1 + allResults.countP (fun other =>
          other.playerId != result.playerId &&
            decide (other.portfolioReturnPercent >
              (bestPositionOf p t).returnPercent)) < result.rank)) := by
  constructor
  · intro result allResults h1
    simp [generateWhatIfMessage, h1]
  · intro result allResults p t hrank hpos
    refine ⟨⟨bestPositionOf_mem t p, bestPositionOf_le t p⟩, ?_⟩
    unfold generateWhatIfMessage
    rw [if_neg (by simp [hrank]), hpos]
    dsimp only
    rw [show t.foldl (fun best pos =>
        if pos.returnPercent > best.returnPercent then pos else best) p =
      bestPositionOf p t from rfl]
    exact ite_ge_emit _ _ _

set_option maxRecDepth 2000 in
/-- Witness for C8: the rank-1 result gets no message, and for the rank-2
result `exResultC` (best position +50%, nobody else above 50%) the
hypothetical rank 1 beats the actual rank 2, so a message is emitted. -/
theorem C8_what_if_message_witness :
    generateWhatIfMessage (setRank exResultA 1) [setRank exResultA 1, exResultC] =
      some none ∧
    1 + List.countP (fun other => other.playerId != exResultC.playerId &&
        decide (other.portfolioReturnPercent >
          (bestPositionOf exPos50 []).returnPercent))
      [setRank exResultA 1, exResultC] < exResultC.rank :=
  ⟨C8_what_if_message.1 (setRank exResultA 1) [setRank exResultA 1, exResultC] rfl,
   (C8_what_if_message.2 exResultC [setRank exResultA 1, exResultC] exPos50 []
      (by decide) rfl).2.mp
    ⟨Msg.whatIf "AAPL" 1, by with_unfolding_all decide⟩⟩

/-! C9: the user-statistics update. -/

theorem world_ext (w w' : World)
    (h1 : w.games = w'.games) (h2 : w.players = w'.players)
    (h3 : w.results = w'.results) (h4 : w.leaderboard = w'.leaderboard)
    (h5 : w.users = w'.users) (h6 : w.priceSnapshots = w'.priceSnapshots)
    (h7 : w.auditLog = w'.auditLog) : w = w' := by
  cases w
  cases w'
  dsimp only at h1 h2 h3 h4 h5 h6 h7
  rw [h1, h2, h3, h4, h5, h6, h7]

set_option maxRecDepth 2000 in
/-- C9 counterexample: the claim says the update adds the player's
`portfolioReturnPercent` to `totalReturns`, but the source rounds the sum
to 2 decimals at write (`roundTo(newTotalReturns, 2)`). Folding a return
of 0.005 into zeroed statistics persists `totalReturns = 0.01`, which is
not `0 + 0.005`. -/
theorem C9_counterexample_totalReturns_rounded :
    updateUserStats exStatsWorld [exResultHalf] = some exStatsWorldStepped ∧
    lookupDoc exStatsWorldStepped.users "u9" =
      some (UserDoc.mk (some (UserStats.mk 1 1 (1/100) (1/100) 1))) ∧
    (1/100 : Rat) ≠ 0 + exResultHalf.portfolioReturnPercent := by
  refine ⟨?_, ?_, ?_⟩
  · have hp : lookupDoc exStatsWorld.players exResultHalf.playerId =
        some exStatsPlayer := rfl
    have hu : exStatsPlayer.userId = some "u9" := rfl
    have hud : lookupDoc exStatsWorld.users "u9" = some exStatsUser := rfl
    simp only [updateUserStats, hp, Option.bind_eq_bind, Option.some_bind, hu]
    rw [if_neg (show ("u9" : String) ≠ "" from by decide)]
    simp only [hud, updateUserStats]
    refine congrArg some (world_ext _ _ rfl rfl rfl rfl ?_ rfl rfl)
    with_unfolding_all decide
  · with_unfolding_all decide
  · with_unfolding_all decide

/-- C9 (amended): for a settled result, `updateUserStats` skips the
player entirely — the store is untouched — when the player has no linked
user id, an empty (falsy) user id, or a user id whose document does not
exist; otherwise it writes `gamesPlayed + 1`, increments `gamesWon`
exactly for rank 1, and stores the accumulated `totalReturns`, the
maximum `bestReturn` and the recomputed running `averageRank`
`(oldAverage * oldCount + rank) / (oldCount + 1)` — each of these three
rounded to 2 decimals at write. -/
theorem C9_amended_stats_update :
    (∀ (w : World) (r : Result) (player : Player),
      lookupDoc w.players r.playerId = some player →
      player.userId = none →
      updateUserStats w [r] = some w) ∧
    (∀ (w : World) (r : Result) (player : Player),
      lookupDoc w.players r.playerId = some player →
      player.userId = some "" →
      updateUserStats w [r] = some w) ∧
    (∀ (w : World) (r : Result) (player : Player) (userId : String),
      lookupDoc w.players r.playerId = some player →
      player.userId = some userId → userId ≠ "" →
      lookupDoc w.users userId = none →
      updateUserStats w [r] = some w) ∧
    (∀ (w : World) (r : Result) (player : Player) (userId : String)
        (userDoc : UserDoc),
      lookupDoc w.players r.playerId = some player →
      player.userId = some userId → userId ≠ "" →
      lookupDoc w.users userId = some userDoc →
      updateUserStats w [r] = some { w with
        users := updateDoc w.users userId (fun u => { u with
          stats := some (UserStats.mk
            ((userDoc.stats.getD (UserStats.mk 0 0 0 0 0)).gamesPlayed + 1)
            ((userDoc.stats.getD (UserStats.mk 0 0 0 0 0)).gamesWon +
              (if r.rank == 1 then 1 else 0))
            (roundTo ((userDoc.stats.getD (UserStats.mk 0 0 0 0 0)).totalReturns +
              r.portfolioReturnPercent) 2)
            (roundTo (max (userDoc.stats.getD (UserStats.mk 0 0 0 0 0)).bestReturn
              r.portfolioReturnPercent) 2)
            (roundTo (((userDoc.stats.getD (UserStats.mk 0 0 0 0 0)).averageRank *
              (userDoc.stats.getD (UserStats.mk 0 0 0 0 0)).gamesPlayed +
              (r.rank : Rat)) /
              ((userDoc.stats.getD (UserStats.mk 0 0 0 0 0)).gamesPlayed + 1)) 2)) }) }) := by
  refine ⟨?_, ?_, ?_, ?_⟩
  · intro w r player hp hnone
    simp only [updateUserStats, hp, Option.bind_eq_bind, Option.some_bind, hnone]
  · intro w r player hp hu
    simp only [updateUserStats, hp, Option.bind_eq_bind, Option.some_bind, hu]
    rw [if_pos trivial]
  · intro w r player userId hp hu hne hud
    simp only [updateUserStats, hp, Option.bind_eq_bind, Option.some_bind, hu]
    rw [if_neg hne]
    simp only [hud, updateUserStats]
  · intro w r player userId userDoc hp hu hne hud
    simp only [updateUserStats, hp, Option.bind_eq_bind, Option.some_bind, hu]
    rw [if_neg hne]
    simp only [hud, updateUserStats]

set_option maxRecDepth 2000 in
/-- Witness for the amended C9 at the concrete world: p9 is linked to u9,
whose zeroed statistics absorb the rank-1 result with return 0.005. -/
theorem C9_amended_witness :
    updateUserStats exStatsWorld [exResultHalf] = some { exStatsWorld with
      users := updateDoc exStatsWorld.users "u9" (fun u => { u with
        stats := some (UserStats.mk
          ((exStatsUser.stats.getD (UserStats.mk 0 0 0 0 0)).gamesPlayed + 1)
          ((exStatsUser.stats.getD (UserStats.mk 0 0 0 0 0)).gamesWon +
            (if exResultHalf.rank == 1 then 1 else 0))
          (roundTo ((exStatsUser.stats.getD (UserStats.mk 0 0 0 0 0)).totalReturns +
            exResultHalf.portfolioReturnPercent) 2)
          (roundTo (max (exStatsUser.stats.getD (UserStats.mk 0 0 0 0 0)).bestReturn
            exResultHalf.portfolioReturnPercent) 2)
          (roundTo (((exStatsUser.stats.getD (UserStats.mk 0 0 0 0 0)).averageRank *
            (exStatsUser.stats.getD (UserStats.mk 0 0 0 0 0)).gamesPlayed +
            (exResultHalf.rank : Rat)) /
            ((exStatsUser.stats.getD (UserStats.mk 0 0 0 0 0)).gamesPlayed + 1)) 2)) }) } :=
  C9_amended_stats_update.2.2.2 exStatsWorld exResultHalf exStatsPlayer "u9" exStatsUser
    rfl rfl (by decide) rfl

/-! C10: the missing-price fallback. -/

/-- C10: when a position's ticker is absent from the resolved price map,
or resolves to the falsy price 0, the final price used is the position's
own `initialPrice`; the persisted `PositionResult` then has
`returnPercent` exactly 0 and `valueAtEnd` the 2-decimal persistence
rounding of `quantity * initialPrice`, while the unrounded
`quantity * initialPrice` flows into the portfolio total; the per-player
computation still produces this position's result (no error). -/
theorem C10_missing_price_fallback :
    ∀ (fp : List (String × Rat)) (position : PortfolioItem),
      lookupDoc fp position.ticker = none ∨ lookupDoc fp position.ticker = some 0 →
      resolveFinalPrice fp position.ticker position.initialPrice =
        position.initialPrice ∧
      (positionResultOf fp position).finalPrice = position.initialPrice ∧
      (positionResultOf fp position).returnPercent = 0 ∧
      (positionResultOf fp position).valueAtEnd =
        roundTo (position.quantity * position.initialPrice) 2 ∧
      rawPositionValue fp position = position.quantity * position.initialPrice ∧
      ∀ (now : Nat) (g : String) (tp : Nat) (player : Player),
        position ∈ player.portfolio →
        positionResultOf fp position ∈
          (computePlayerResult now g fp tp player).positionResults := by
  intro fp position h
  have h1 : resolveFinalPrice fp position.ticker position.initialPrice =
      position.initialPrice := by
    unfold resolveFinalPrice
    rcases h with h | h
    · rw [h]
    · rw [h]
      show (if (0 : Rat) = 0 then position.initialPrice else (0 : Rat)) =
        position.initialPrice
      rw [if_pos rfl]
  have hret : calculateReturn position.initialPrice position.initialPrice = 0 := by
    unfold calculateReturn
    by_cases hi : position.initialPrice = 0
    · rw [if_pos hi]
    · rw [if_neg hi, sub_self, zero_div, zero_mul]
  have hr0 : roundTo 0 4 = 0 := by with_unfolding_all decide
  refine ⟨h1, ?_, ?_, ?_, ?_, ?_⟩
  · show resolveFinalPrice fp position.ticker position.initialPrice =
      position.initialPrice
    exact h1
  · show roundTo (calculateReturn position.initialPrice
        (resolveFinalPrice fp position.ticker position.initialPrice)) 4 = 0
    rw [h1, hret]
    exact hr0
  · show roundTo (calculatePositionValue position.quantity
        (resolveFinalPrice fp position.ticker position.initialPrice)) 2 =
      roundTo (position.quantity * position.initialPrice) 2
    rw [h1]
    rfl
  · show calculatePositionValue position.quantity
        (resolveFinalPrice fp position.ticker position.initialPrice) =
      position.quantity * position.initialPrice
    rw [h1]
    rfl
  · intro now g tp player hmem
    rw [computePlayerResult_positionResults]
    exact List.mem_map_of_mem _ hmem

set_option maxRecDepth 2000 in
/-- Witness for C10: ticker MISS is absent from the concrete price map,
so the fallback position result keeps the initial price 100, returns
exactly 0 and is worth 50 * 100 at the end. -/
theorem C10_missing_price_fallback_witness :
    (positionResultOf exPrices exPosMissing).finalPrice =
      exPosMissing.initialPrice ∧
    (positionResultOf exPrices exPosMissing).returnPercent = 0 ∧
    (positionResultOf exPrices exPosMissing).valueAtEnd =
      roundTo (exPosMissing.quantity * exPosMissing.initialPrice) 2 :=
  ⟨(C10_missing_price_fallback exPrices exPosMissing
      (Or.inl (by with_unfolding_all decide))).2.1,
   (C10_missing_price_fallback exPrices exPosMissing
      (Or.inl (by with_unfolding_all decide))).2.2.1,
   (C10_missing_price_fallback exPrices exPosMissing
      (Or.inl (by with_unfolding_all decide))).2.2.2.1⟩

end WS
